import Mathlib

/-!
Verification development for the browser-automation agent of this repository.

The Python sources are shallowly embedded: strings become `List Char`,
dictionaries become association lists in insertion order (CPython dicts
iterate in insertion order), exceptions become explicit error values, and
the browser / LLM backends become oracles supplied as explicit function
parameters.  Every definition mirrors the function of the same name in the
sources (`utils/sensitive_data.py`, `utils/controller.py`,
`utils/agent_runner.py`); deviating details are noted in doc comments.
-/

set_option maxHeartbeats 1000000

namespace NovelAgent

/-- Python strings, modeled as lists of characters. -/
abbrev Str := List Char

/-- Python substring containment `pat in s` (for `str` operands). -/
def strIn (pat s : Str) : Bool := decide (pat <:+: s)

/-- The scanner behind `replaceAll`, structurally recursive on fuel so
that it evaluates inside the kernel.  A nonempty match consumes at least
one character, so fuel equal to the length always suffices and the
out-of-fuel branch is unreachable from `replaceAll`. -/
def replaceAllF (pat repl : Str) : Nat → Str → Str
  | _, [] => if pat = [] then repl else []
  | 0, s => s
  | fuel+1, c :: cs =>
      if pat = [] then
        repl ++ c :: replaceAllF pat repl fuel cs
      else if pat.isPrefixOf (c :: cs) then
        repl ++ replaceAllF pat repl fuel ((c :: cs).drop pat.length)
      else
        c :: replaceAllF pat repl fuel cs

/-- Python `s.replace(pat, repl)` on character lists: replaces the
left-to-right non-overlapping occurrences of `pat` in `s` by `repl`;
with an empty `pat` it inserts `repl` at every position, like CPython. -/
def replaceAll (pat repl s : Str) : Str := replaceAllF pat repl s.length s

/-- The scanner behind `splitOnSub`, fuel-structured like `replaceAllF`. -/
def splitOnSubF (sep : Str) : Nat → Str → List Str
  | _, [] => [[]]
  | 0, s => [s]
  | fuel+1, c :: cs =>
      if sep = [] then [c :: cs]
      else if sep.isPrefixOf (c :: cs) then
        [] :: splitOnSubF sep fuel ((c :: cs).drop sep.length)
      else
        match splitOnSubF sep fuel cs with
        | [] => [[c]]
        | p :: ps => (c :: p) :: ps

/-- Python `s.split(sep)` for a nonempty separator `sep`; with an empty
separator CPython raises, and no embedded call site passes one, so the
empty case returns `[s]`. -/
def splitOnSub (sep s : Str) : List Str := splitOnSubF sep s.length s

/-- Python `s.strip()`: drop ASCII whitespace from both ends (the embedding
uses `Char.isWhitespace`, which covers the whitespace that occurs in the
sources and in action parameters). -/
def pyStrip (s : Str) : Str :=
  (s.dropWhile Char.isWhitespace).reverse.dropWhile Char.isWhitespace |>.reverse

/-- Python `s.lower()` (ASCII case folding; the completion-indicator
vocabulary of the sources is ASCII or already lower case). -/
def pyLower (s : Str) : Str := s.map Char.toLower

/-- Python `s.startswith(p)`. -/
def pyStartsWith (p s : Str) : Bool := p.isPrefixOf s

/-! ## Sensitive Data Vault (`utils/sensitive_data.py`) -/

/-- The manager's `sensitive_placeholders` dict: placeholder ↦ secret,
in insertion order. -/
abbrev SensitiveData := List (Str × Str)

/-- The bracketed placeholder pattern `f"[{placeholder}]"`. -/
def marker (p : Str) : Str := '[' :: p ++ [']']

/-- `SensitiveDataManager.mask_prompt`: replace every occurrence of each
non-empty secret value by its bracketed placeholder, iterating the vault
in insertion order; empty text or an empty vault is returned unchanged. -/
def mask_prompt (sd : SensitiveData) (text : Str) : Str :=
  if text = [] ∨ sd = [] then text
  else
    sd.foldl (fun acc ps =>
      if ps.2 ≠ [] ∧ strIn ps.2 acc then
        replaceAll ps.2 (marker ps.1) acc
      else acc) text

/-- The inner loop of `SensitiveDataManager.unmask_action` on one string
parameter value: replace `[placeholder]` by the secret; as a fallback,
a value that is exactly the bare placeholder becomes the secret. -/
def unmask_value (sd : SensitiveData) (v : Str) : Str :=
  sd.foldl (fun acc ps =>
    if strIn (marker ps.1) acc then
      replaceAll (marker ps.1) ps.2 acc
    else if acc = ps.1 then ps.2
    else acc) v

/-- `SensitiveDataManager.unmask_action`: unmask every string parameter
value (the embedding models all parameter values as strings; non-string
values pass through unchanged in the source). -/
def unmask_action (sd : SensitiveData) (params : List (Str × Str)) : List (Str × Str) :=
  if params = [] ∨ sd = [] then params
  else params.map (fun kv => (kv.1, unmask_value sd kv.2))

/-- `SensitiveDataManager.filter_page_content`: same replacement loop as
`mask_prompt`, applied to page text before it is sent to the LLM. -/
def filter_page_content (sd : SensitiveData) (content : Str) : Str :=
  if content = [] ∨ sd = [] then content
  else
    sd.foldl (fun acc ps =>
      if ps.2 ≠ [] ∧ strIn ps.2 acc then
        replaceAll ps.2 (marker ps.1) acc
      else acc) content

/-- Python `s.endswith(p)`. -/
def pyEndsWith (p s : Str) : Bool := decide (p <:+ s)

/-! ## Action Registry (`utils/controller.py`) -/

/-- `controller.ActionResult` (the plain class, not the pydantic model). -/
structure CActionResult where
  extracted_content : Option Str := none
  success : Bool := true
  error : Option Str := none
deriving Repr, DecidableEq

/-- A Python value as returned by a registered handler. -/
inductive PyVal where
  | vStr : Str → PyVal
  | vInt : Int → PyVal
  | vBool : Bool → PyVal
  | vNone : PyVal
  | vRes : CActionResult → PyVal
deriving Repr, DecidableEq

/-- `f"Erro: {self.error}"` renders a `None` error as the text `None`. -/
def optErrStr : Option Str → Str
  | some e => e
  | none => ("None").data

/-- Python `str(v)`; on a `controller.ActionResult` this is its `__str__`:
the extracted content when successful (falling back to the default text
when the content is `None` or empty, both falsy), else `"Erro: ..."`. -/
def pyValStr : PyVal → Str
  | .vStr s => s
  | .vInt n => (toString n).data
  | .vBool b => if b then ("True").data else ("False").data
  | .vNone => ("None").data
  | .vRes r =>
    if r.success then
      match r.extracted_content with
      | some c => if c = [] then ("Ação executada com sucesso").data else c
      | none => ("Ação executada com sucesso").data
    else ("Erro: ").data ++ optErrStr r.error

/-- Outcome of calling a handler: a returned value, or a raised exception
carrying `str(e)`. -/
inductive Outcome where
  | ret : PyVal → Outcome
  | exn : Str → Outcome
deriving Repr, DecidableEq

/-- A registered handler: whether its signature declares a `browser`
parameter, and its behavior as a function of (browser injected?, the
keyword arguments).  `async` and plain handlers behave identically once
awaited, so the distinction is not modeled. -/
structure Handler where
  wantsBrowser : Bool
  run : Bool → List (Str × PyVal) → Outcome

/-- The controller's `actions` dict: name ↦ handler, insertion order with
unique names (dict re-registration overwrites in place). -/
abbrev ControllerM := List (Str × Handler)

/-- `Controller.execute_action` (lines 307-355): unknown names and raising
handlers are both converted into failed `ActionResult`s; a handler value
that is not an `ActionResult` is wrapped as successful extracted content. -/
def execute_action (ctl : ControllerM) (action_name : Str)
    (params : List (Str × PyVal)) (browser : Bool) : CActionResult :=
  match List.lookup action_name ctl with
  | none =>
      { success := false,
        error := some (("Ação não encontrada: ").data ++ action_name) }
  | some f =>
      match f.run (f.wantsBrowser && browser) params with
      | .exn e =>
          { success := false,
            error := some (("Erro ao executar ").data ++ action_name ++ (": ").data ++ e) }
      | .ret v =>
          match v with
          | .vRes r => r
          | _ => { extracted_content := some (pyValStr v) }

/-! ## Agent runner data model (`utils/agent_runner.py`) -/

/-- The pydantic `ActionResult` of `agent_runner.py`. -/
structure AActionResult where
  success : Bool := true
  extracted_content : Option Str := none
  error : Option Str := none
deriving Repr, DecidableEq

/-- One `step_result` dict (lines 785-788): `'step'` and
`'evaluation_previous_goal'` are set at creation; `'next_goal'` is added
only on the paths that choose an action or finish the task. -/
structure StepRec where
  step : Nat
  evaluation_previous_goal : Str
  next_goal : Option Str := none
deriving Repr, DecidableEq

/-- The keys of the `step_result` dict, in insertion order. -/
def StepRec.fields (r : StepRec) : List Str :=
  [("step").data, ("evaluation_previous_goal").data] ++
    (match r.next_goal with
     | some _ => [("next_goal").data]
     | none => [])

/-- The `result` dict built at lines 218-226.  Its key set is fixed there
and never changes afterwards; `'sensitive_data'` is initialized to an
empty dict and never written again. -/
structure TaskResult where
  status : Str
  steps : List StepRec
  urls : List Str
  screenshots : List Str
  errors : List Str
  output : Str
  sensitive_data : List (Str × Str)
deriving Repr, DecidableEq

/-- The keys of the `result` dict, in construction order (lines 218-226). -/
def TaskResult.fields (_ : TaskResult) : List Str :=
  [("status").data, ("steps").data, ("urls").data, ("screenshots").data,
   ("errors").data, ("output").data, ("sensitive_data").data]

/-- The initial `result` value (lines 218-226). -/
def initResult : TaskResult :=
  { status := ("running").data, steps := [], urls := [], screenshots := [],
    errors := [], output := [], sensitive_data := [] }

/-- The fields of `BrowserContextConfig` with observable effect in the
embedding.  The float-valued timing fields only pace browser waits and
have no effect on any modeled observable, so they are omitted. -/
structure ContextCfg where
  highlight_elements : Bool := true
  allowed_domains : Option (List Str) := none
deriving Repr, DecidableEq

/-- The observable parts of `browser_config` consumed inside the loop. -/
structure Config where
  use_vision : Bool := true
  max_steps : Nat := 15
  full_page_screenshot : Bool := false
  output_format : Option Str := none
  ctx : ContextCfg := {}
deriving Repr, DecidableEq

/-- The mutable state the loop's closures share: the `tabs` list (page
handles are opaque ids), `current_tab_index`, the id `context.new_page()`
will hand out next, a counter of screenshot captures, the log of
`asyncio.sleep` durations performed by `wait`, the growing prompt, and
the `result` dict. -/
structure AgentState where
  tabs : List Nat
  current_tab_index : Nat
  nextPage : Nat
  shotCount : Nat
  sleeps : List Int
  prompt : Str
  res : TaskResult
deriving Repr, DecidableEq

/-- Oracles for the browser backend and the LLM.  A `page.*` call that
raises is modeled as `Except.error` (or `Option.some`) carrying `str(e)`.
`llmReply` is indexed by the step number: `call_llm` catches every
provider failure and returns text, so an arbitrary reply sequence is the
most general faithful model of it. -/
structure Env where
  llmReply : Nat → Str
  visionShotExn : Nat → Option Str
  shot : Nat → Except Str Str
  highlight : Str → Option Str
  goto : Str → Except Str (Option Int)
  click : Str → Except Str Unit
  fill : Str → Str → Except Str Unit
  textContent : Str → Except Str Str
  evalJs : Str → Except Str Unit
  pageLinks : Except Str (List (Str × Str))
  pageText : Except Str Str
  searchAfterNav : Str → Except Str Unit
  newPageExn : Option Str
  closePageExn : Option Str
  setFiles : Str → Str → Except Str Unit

/-- `result['errors'].append(e)`. -/
def pushErr (st : AgentState) (e : Str) : AgentState :=
  { st with res := { st.res with errors := st.res.errors ++ [e] } }

/-- `result['errors'].append(e)` followed by `prompt += ptext`, the pair
of statements the scan performs on its error paths. -/
def pushErrPrompt (st : AgentState) (e ptext : Str) : AgentState :=
  { st with prompt := st.prompt ++ ptext,
            res := { st.res with errors := st.res.errors ++ [e] } }

/-! ## Built-in browser actions (lines 314-708) -/

/-- URL scheme normalization at the top of `navigate`. -/
def normalizeUrl (url : Str) : Str :=
  if pyStartsWith (("http://").data) url || pyStartsWith (("https://").data) url then url
  else ("https://").data ++ url

/-- The apostrophe character (written via its code point to keep string
renderings readable). -/
def sq : Char := Char.ofNat 39

/-- `domain = url.split('//')[-1].split('/')[0]` followed by the
base-domain computation of `navigate` (lines 321-322). -/
def baseDomain (url : Str) : Str :=
  let domain := (splitOnSub (("/").data) ((splitOnSub (("//").data) url).getLastD [])).headD []
  let parts := splitOnSub ((".").data) domain
  if 1 < parts.length then
    List.intercalate ((".").data) (parts.drop (parts.length - 2))
  else domain

/-- Python `repr` of a list of strings, as an f-string renders
`allowed_domains`. -/
def pyReprStrList (l : List Str) : Str :=
  ("[").data ++ List.intercalate ((", ").data)
    (l.map (fun s => sq :: s ++ [sq])) ++ ("]").data

/-- The `allowed_domains` policy check of `navigate` (lines 320-328):
`some` is the rejection message, `none` lets navigation proceed. -/
def navRejection (cfg : Config) (url : Str) : Option Str :=
  match cfg.ctx.allowed_domains with
  | some allowed =>
      let bd := baseDomain url
      if allowed.any (fun a => pyEndsWith a bd) then none
      else some (("Domínio não permitido: ").data ++ bd ++
        (". Permitidos: ").data ++ pyReprStrList allowed)
  | none => none

/-- `navigate(url)` (lines 314-356): scheme normalization, the
`allowed_domains` policy check, `page.goto`, and the URL/error recording.
The post-navigation minimum wait and the best-effort network-idle wait
(its timeout is logged and swallowed) have no observable effect. -/
def navigate (env : Env) (cfg : Config) (st : AgentState) (url : Str) :
    AActionResult × AgentState :=
  let url := normalizeUrl url
  match navRejection cfg url with
  | some m => ({ success := false, error := some m }, st)
  | none =>
      match env.goto url with
      | .ok status =>
          let stText := match status with
            | some code => (toString code).data
            | none => ("desconhecido").data
          ({ extracted_content :=
               some (("Navegou para ").data ++ url ++ (". Status: ").data ++ stText) },
           { st with res := { st.res with urls := st.res.urls ++ [url] } })
      | .error e =>
          let m := ("Erro ao navegar para ").data ++ url ++ (": ").data ++ e
          ({ success := false, error := some m }, pushErr st m)

/-- Best-effort highlight before acting: the `page.evaluate` highlight call
sits inside the action's own `try`, so a raise there falls through to the
same `except` as the main page call.  Returns the first exception text. -/
def withHighlight (env : Env) (cfg : Config) (selector : Str)
    (mainCall : Except Str Unit) : Option Str :=
  match (if cfg.ctx.highlight_elements then env.highlight selector else none) with
  | some e => some e
  | none =>
      match mainCall with
      | .error e => some e
      | .ok _ => none

/-- `click(selector)` (lines 358-388). -/
def click (env : Env) (cfg : Config) (st : AgentState) (selector : Str) :
    AActionResult × AgentState :=
  match withHighlight env cfg selector (env.click selector) with
  | some e =>
      let m := ("Erro ao clicar em ").data ++ selector ++ (": ").data ++ e
      ({ success := false, error := some m }, pushErr st m)
  | none =>
      ({ extracted_content := some (("Clicou em ").data ++ selector) }, st)

/-- The unmasking loop of `type_text` (lines 395-403).  Each iteration
tests and replaces into the original `text`, not into the accumulator, so
when several placeholders occur in one text only the replacement of the
last matching entry survives. -/
def type_text_unmask (sd : SensitiveData) (text : Str) : Str :=
  sd.foldl (fun acc ps =>
    if strIn (marker ps.1) text then replaceAll (marker ps.1) ps.2 text
    else if ps.1 = text then ps.2
    else acc) text

/-- The log-masking loop of `type_text` (lines 423-428).  The source again
replaces into the original `text`, not into the accumulator, so when two
different secrets occur in `text`, every iteration discards the previous
masking and only the last matching secret ends up masked. -/
def type_text_mask_log (sd : SensitiveData) (text : Str) : Str :=
  sd.foldl (fun acc ps =>
    if strIn ps.2 text then replaceAll ps.2 (marker ps.1) text
    else acc) text

/-- `type_text(selector, text)` (lines 390-437): unmask placeholders for
the actual `page.fill`, then report a log-masked rendering of the typed
text as the extracted content. -/
def type_text (env : Env) (cfg : Config) (sd : SensitiveData) (st : AgentState)
    (selector text : Str) : AActionResult × AgentState :=
  let sensitive_text := type_text_unmask sd text
  match withHighlight env cfg selector (env.fill selector sensitive_text) with
  | some e =>
      let m := ("Erro ao digitar em ").data ++ selector ++ (": ").data ++ e
      ({ success := false, error := some m }, pushErr st m)
  | none =>
      let masked := type_text_mask_log sd text
      ({ extracted_content :=
           some (("Digitou ").data ++ [sq] ++ masked ++ [sq] ++ (" em ").data ++ selector) },
       st)

/-- `take_screenshot()` (lines 439-455): capture, persist through
`save_screenshot`, and record the returned path. -/
def take_screenshot (env : Env) (st : AgentState) : AActionResult × AgentState :=
  match env.shot st.shotCount with
  | .ok path =>
      ({ extracted_content := some (("Screenshot capturado: ").data ++ path) },
       { st with shotCount := st.shotCount + 1,
                 res := { st.res with screenshots := st.res.screenshots ++ [path] } })
  | .error e =>
      let m := ("Erro ao capturar screenshot: ").data ++ e
      ({ success := false, error := some m },
       pushErr { st with shotCount := st.shotCount + 1 } m)

/-- The sensitive-data filter inside `extract_text` (lines 475-478); this
one accumulates correctly across entries. -/
def extract_text_filter (sd : SensitiveData) (text : Str) : Str :=
  sd.foldl (fun acc ps =>
    if strIn ps.2 acc then replaceAll ps.2 (marker ps.1) acc else acc) text

/-- `extract_text(selector)` (lines 457-487).  (`page.text_content` can
return `None` in Playwright; the embedding models text pages only.) -/
def extract_text (env : Env) (cfg : Config) (sd : SensitiveData) (st : AgentState)
    (selector : Str) : AActionResult × AgentState :=
  let fetched : Except Str Str :=
    match (if cfg.ctx.highlight_elements then env.highlight selector else none) with
    | some e => .error e
    | none => env.textContent selector
  match fetched with
  | .error e =>
      let m := ("Erro ao extrair texto de ").data ++ selector ++ (": ").data ++ e
      ({ success := false, error := some m }, pushErr st m)
  | .ok text =>
      let text := if sd ≠ [] then extract_text_filter sd text else text
      ({ extracted_content :=
           some (("Texto extraído de ").data ++ selector ++ (": ").data ++ text) },
       st)

/-- A parsed-parameter value as the built-in receives it: the dispatch at
lines 834-843 passes the reply parser's strings, while the annotated
types (`wait(seconds: int)`, `switch_tab(index: int)`) expect ints. -/
inductive PyParam where
  | pstr : Str → PyParam
  | pint : Int → PyParam
deriving Repr, DecidableEq

/-- `wait(seconds)` (lines 489-501).  With an `int` the duration is
clamped by `min(seconds, 30)` and slept.  The agent loop, however, passes
the parser's `str`, and `min(str, 30)` raises `TypeError` before any
sleep, which the handler's own `except` converts into a failed result —
so no sleep happens on that path. -/
def wait (st : AgentState) (seconds : PyParam) : AActionResult × AgentState :=
  match seconds with
  | .pint n =>
      let n := min n 30
      ({ extracted_content :=
           some (("Esperou ").data ++ (toString n).data ++ (" segundos").data) },
       { st with sleeps := st.sleeps ++ [n] })
  | .pstr _ =>
      let m := ("Erro ao esperar: '<' not supported between instances of 'int' and 'str'").data
      ({ success := false, error := some m }, pushErr st m)

/-- `scroll_down(amount=500)` (lines 504-515); the zero-argument call site
renders the default `500` identically to the one-argument textual form. -/
def scroll_down (env : Env) (st : AgentState) (amount : Str) :
    AActionResult × AgentState :=
  match env.evalJs (("window.scrollBy(0, ").data ++ amount ++ (")").data) with
  | .ok _ =>
      ({ extracted_content :=
           some (("Rolou ").data ++ amount ++ (" pixels para baixo").data) }, st)
  | .error e =>
      let m := ("Erro ao rolar para baixo: ").data ++ e
      ({ success := false, error := some m }, pushErr st m)

/-- `scroll_up(amount=500)` (lines 517-528). -/
def scroll_up (env : Env) (st : AgentState) (amount : Str) :
    AActionResult × AgentState :=
  match env.evalJs (("window.scrollBy(0, -").data ++ amount ++ (")").data) with
  | .ok _ =>
      ({ extracted_content :=
           some (("Rolou ").data ++ amount ++ (" pixels para cima").data) }, st)
  | .error e =>
      let m := ("Erro ao rolar para cima: ").data ++ e
      ({ success := false, error := some m }, pushErr st m)

/-- `search_google(query)` (lines 530-552): navigate to Google, then fill
and submit the query; a failed navigation is returned as-is. -/
def search_google (env : Env) (cfg : Config) (st : AgentState) (query : Str) :
    AActionResult × AgentState :=
  let nav := navigate env cfg st (("https://www.google.com").data)
  if ¬ nav.1.success then nav
  else
    match env.searchAfterNav query with
    | .ok _ =>
        ({ extracted_content :=
             some (("Pesquisou por ").data ++ [sq] ++ query ++ [sq] ++
               (" no Google").data) }, nav.2)
    | .error e =>
        let m := ("Erro ao pesquisar no Google: ").data ++ e
        ({ success := false, error := some m }, pushErr nav.2 m)

/-- `open_tab(url=None)` (lines 554-578).  An empty url string is falsy in
Python, so it behaves like no url. -/
def open_tab (env : Env) (cfg : Config) (st : AgentState) (url : Option Str) :
    AActionResult × AgentState :=
  match env.newPageExn with
  | some e =>
      let m := ("Erro ao abrir nova aba: ").data ++ e
      ({ success := false, error := some m }, pushErr st m)
  | none =>
      let newIndex := st.tabs.length
      let st := { st with tabs := st.tabs ++ [st.nextPage],
                          nextPage := st.nextPage + 1,
                          current_tab_index := newIndex }
      let urlTruthy := match url with
        | some u => if u = [] then none else some u
        | none => none
      match urlTruthy with
      | some u =>
          let nav := navigate env cfg st u
          ({ success := nav.1.success,
             extracted_content :=
               some (("Nova aba criada e navegada para ").data ++ u),
             error := nav.1.error }, nav.2)
      | none =>
          ({ extracted_content :=
               some (("Nova aba criada (índice ").data ++
                 (toString newIndex).data ++ (")").data) }, st)

/-- `switch_tab(index)` (lines 580-595).  With an `int` index the bounds
check either moves `current_tab_index` or reports an invalid index without
touching any state; the loop's `str` argument makes `0 <= index` raise
`TypeError`, which the `except` converts into a failed result (appending
to the error list) with tabs and index untouched either way. -/
def switch_tab (st : AgentState) (index : PyParam) : AActionResult × AgentState :=
  match index with
  | .pint i =>
      if 0 ≤ i ∧ i < (st.tabs.length : Int) then
        ({ extracted_content :=
             some (("Alternado para aba ").data ++ (toString i).data) },
         { st with current_tab_index := i.toNat })
      else
        ({ success := false,
           error := some (("Índice de aba inválido: ").data ++ (toString i).data ++
             (". Disponíveis: 0-").data ++ (toString ((st.tabs.length : Int) - 1)).data) },
         st)
  | .pstr _ =>
      let m := ("Erro ao alternar abas: '<=' not supported between instances of 'int' and 'str'").data
      ({ success := false, error := some m }, pushErr st m)

/-- `close_tab()` (lines 597-620): closing the sole remaining tab is
rejected before any browser call; otherwise the current page is closed
and popped and the index moves to `max(0, current - 1)` (`Nat`
subtraction mirrors the `max`). -/
def close_tab (env : Env) (st : AgentState) : AActionResult × AgentState :=
  if st.tabs.length ≤ 1 then
    ({ success := false, error := some (("Não é possível fechar a última aba").data) }, st)
  else
    if st.current_tab_index < st.tabs.length then
      match env.closePageExn with
      | some e =>
          let m := ("Erro ao fechar aba: ").data ++ e
          ({ success := false, error := some m }, pushErr st m)
      | none =>
          let st := { st with tabs := st.tabs.eraseIdx st.current_tab_index,
                              current_tab_index := st.current_tab_index - 1 }
          ({ extracted_content :=
               some (("Aba fechada. Agora na aba ").data ++
                 (toString st.current_tab_index).data) }, st)
    else
      let m := ("Erro ao fechar aba: list index out of range").data
      ({ success := false, error := some m }, pushErr st m)

/-- `extract_all_links()` (lines 622-651): renders at most 30 links and
summarizes the remainder by count.  Note this action applies no
sensitive-data filtering to the page-derived text. -/
def extract_all_links (env : Env) (st : AgentState) : AActionResult × AgentState :=
  match env.pageLinks with
  | .error e =>
      let m := ("Erro ao extrair links: ").data ++ e
      ({ success := false, error := some m }, pushErr st m)
  | .ok links =>
      let formatted := (links.take 30).enum.map (fun il =>
        (toString (il.1 + 1)).data ++ (". ").data ++ [sq] ++ il.2.1 ++ [sq] ++
          (" - ").data ++ il.2.2)
      let all := List.intercalate (("\n").data) formatted ++
        (if 30 < links.length then
          ("\n... e mais ").data ++ (toString (links.length - 30)).data ++
            (" links (mostrando apenas os primeiros 30)").data
         else [])
      ({ extracted_content :=
           some (("Links encontrados na página:\n").data ++ all) }, st)

/-- `extract_all_text()` (lines 653-676): truncate to 4000 characters,
then filter sensitive data through the vault. -/
def extract_all_text (env : Env) (sd : SensitiveData) (st : AgentState) :
    AActionResult × AgentState :=
  match env.pageText with
  | .error e =>
      let m := ("Erro ao extrair texto: ").data ++ e
      ({ success := false, error := some m }, pushErr st m)
  | .ok text =>
      let text :=
        if 4000 < text.length then
          text.take 4000 ++ ("\n... (texto truncado, mostrando 4000 de ").data ++
            (toString text.length).data ++ (" caracteres)").data
        else text
      let text := if sd ≠ [] then filter_page_content sd text else text
      ({ extracted_content := some (("Texto da página:\n").data ++ text) }, st)

/-- `upload_file(selector, filename)` (lines 678-708): writes a temp file
(no modeled observable) and uploads it via `set_input_files`. -/
def upload_file (env : Env) (cfg : Config) (st : AgentState)
    (selector filename : Str) : AActionResult × AgentState :=
  match withHighlight env cfg selector (env.setFiles selector filename) with
  | some e =>
      let m := ("Erro ao fazer upload de arquivo: ").data ++ e
      ({ success := false, error := some m }, pushErr st m)
  | none =>
      ({ extracted_content :=
           some (("Arquivo ").data ++ [sq] ++ filename ++ [sq] ++
             (" enviado através do elemento ").data ++ selector) }, st)

/-! ## Parsing the LLM reply (lines 790-827) -/

/-- `\w` of the action regex, modeled over ASCII (plus underscore).  The
Python regex also matches non-ASCII word characters; every registered
action name is ASCII, so recognition of registered names agrees. -/
def wordChar (c : Char) : Bool := c.isAlphanum || c = '_'

/-- One attempted match of `(\w+)\s*\(([^\)]*)\)` anchored at the start of
`s`: a maximal word-character run, optional whitespace, `'('`, the run of
non-`')'` characters, `')'`.  Returns the two capture groups and the
remainder after the match. -/
def tryMatch (s : Str) : Option ((Str × Str) × Str) :=
  let nm := s.takeWhile wordChar
  if nm = [] then none
  else
    match (s.drop nm.length).dropWhile Char.isWhitespace with
    | '(' :: r2 =>
        let args := r2.takeWhile (fun c => c ≠ ')')
        match r2.drop args.length with
        | ')' :: r3 => some ((nm, args), r3)
        | _ => none
    | _ => none

/-- `re.findall` scanning: try a match at every position, resume after the
end of each match (non-overlapping).  A successful match always consumes
at least three characters, so fuel equal to the length suffices. -/
def findMatchesF : Nat → Str → List (Str × Str)
  | 0, _ => []
  | _, [] => []
  | fuel+1, c :: cs =>
    match tryMatch (c :: cs) with
    | some (m, rest) => m :: findMatchesF fuel rest
    | none => findMatchesF fuel cs

/-- `re.findall(r'(\w+)\s*\(([^\)]*)\)', llm_response)` (lines 793-794). -/
def findMatches (s : Str) : List (Str × Str) := findMatchesF s.length s

/-- The quoted-segment scanner of the shlex tokenizer: consume through the
closing quote, or fail (`ValueError`) when it is missing. -/
def splitQuoted (q : Char) : Str → Option (Str × Str)
  | [] => none
  | c :: cs =>
      if c = q then some ([], cs)
      else
        match splitQuoted q cs with
        | some tr => some (c :: tr.1, tr.2)
        | none => none

/-- A `shlex.split` sufficient for the parameter strings the loop feeds
it: whitespace-separated tokens with single- or double-quote grouping.
Backslash escapes are not modeled (no claim exercises them).  `none`
models the `ValueError` on an unterminated quote. -/
def shlexLoop : Nat → List Str → Option Str → Str → Option (List Str)
  | 0, _, _, _ => none
  | _+1, acc, cur, [] =>
      some (acc ++ (match cur with | some t => [t] | none => []))
  | fuel+1, acc, cur, c :: cs =>
      if c.isWhitespace then
        shlexLoop fuel (acc ++ (match cur with | some t => [t] | none => [])) none cs
      else if c = '"' ∨ c = sq then
        match splitQuoted c cs with
        | none => none
        | some tr => shlexLoop fuel acc (some ((cur.getD []) ++ tr.1)) tr.2
      else
        shlexLoop fuel acc (some ((cur.getD []) ++ [c])) cs

/-- `shlex.split(processed_str)` (line 809). -/
def shlexSplit (s : Str) : Option (List Str) := shlexLoop (s.length + 1) [] none s

/-- The token-to-parameter reconstruction of lines 812-823: tokens up to a
stand-alone `','` are joined with single spaces, each finished parameter
is stripped. -/
def rebuildParams : List Str → Str → List Str → List Str
  | acc, cur, [] => acc ++ (if cur ≠ [] then [pyStrip cur] else [])
  | acc, cur, t :: ts =>
      if t = ((",").data) then
        if cur ≠ [] then rebuildParams (acc ++ [pyStrip cur]) [] ts
        else rebuildParams acc [] ts
      else
        rebuildParams acc (if cur ≠ [] then cur ++ [' '] ++ t else t) ts

/-- Parameter splitting for built-in actions (lines 801-827): pad commas
into stand-alone tokens, tokenize with shlex, and re-join; on a shlex
failure fall back to a plain split on `','` with `strip`. -/
def parseParams (params_str : Str) : List Str :=
  if pyStrip params_str = [] then []
  else
    match shlexSplit (replaceAll ((",").data) ((" , ").data) params_str) with
    | some tokens => rebuildParams [] [] tokens
    | none => (splitOnSub ((",").data) params_str).map pyStrip

/-- Parameter-dict parsing for custom controller actions (lines 858-873).
`ast.literal_eval(f"dict({params_str})")` rejects call expressions and
always raises, so the `except` fallback — split on `','`, then on the
first `'='` — is what actually runs. -/
def parseCustomParams (params_str : Str) : List (Str × Str) :=
  if pyStrip params_str = [] then []
  else
    (splitOnSub ((",").data) params_str).foldl (fun acc param =>
      if strIn (("=").data) param then
        match splitOnSub (("=").data) param with
        | [] => acc
        | k :: rest =>
            acc ++ [(pyStrip k, pyStrip (List.intercalate (("=").data) rest))]
      else acc) []

/-- The custom-action unmasking loop (lines 876-882); like `type_text`,
each iteration replaces into the original value, so with several
placeholders in one value only the last matching replacement survives. -/
def unmaskCustomParams (sd : SensitiveData) (ps : List (Str × Str)) :
    List (Str × Str) :=
  ps.map (fun kv =>
    (kv.1, sd.foldl (fun acc e =>
      if strIn (marker e.1) kv.2 then replaceAll (marker e.1) e.2 kv.2
      else acc) kv.2))

/-! ## Dispatch (lines 710-728 and 790-903) -/

/-- The built-in actions, one constructor per handler. -/
inductive BName where
  | navigate | click | type_text | screenshot | extract_text | wait
  | scroll_down | scroll_up | search_google | open_tab | switch_tab
  | close_tab | extract_all_links | extract_all_text | upload_file
deriving Repr, DecidableEq

/-- The `action_map` dict (lines 711-728); `'type'` and `'type_text'` both
map to the same handler. -/
def action_map : List (Str × BName) :=
  [ (("navigate").data, .navigate), (("click").data, .click),
    (("type").data, .type_text), (("type_text").data, .type_text),
    (("screenshot").data, .screenshot), (("extract_text").data, .extract_text),
    (("wait").data, .wait), (("scroll_down").data, .scroll_down),
    (("scroll_up").data, .scroll_up), (("search_google").data, .search_google),
    (("open_tab").data, .open_tab), (("switch_tab").data, .switch_tab),
    (("close_tab").data, .close_tab),
    (("extract_all_links").data, .extract_all_links),
    (("extract_all_text").data, .extract_all_text),
    (("upload_file").data, .upload_file) ]

/-- Calling a built-in with the parsed textual parameters, mirroring the
arity-indexed calls of lines 834-843.  `none` models the `TypeError`
CPython raises when the argument count does not fit the handler's
signature.  No handler body raises (each wraps its whole body in
`try`/`except`), so a `some` outcome is the handler's returned result. -/
def runBuiltin (env : Env) (cfg : Config) (sd : SensitiveData) (b : BName)
    (params : List Str) (st : AgentState) : Option (AActionResult × AgentState) :=
  match b, params with
  | .navigate, [u] => some (navigate env cfg st u)
  | .click, [s] => some (click env cfg st s)
  | .type_text, [s, t] => some (type_text env cfg sd st s t)
  | .screenshot, [] => some (take_screenshot env st)
  | .extract_text, [s] => some (extract_text env cfg sd st s)
  | .wait, [s] => some (wait st (.pstr s))
  | .scroll_down, [] => some (scroll_down env st (("500").data))
  | .scroll_down, [a] => some (scroll_down env st a)
  | .scroll_up, [] => some (scroll_up env st (("500").data))
  | .scroll_up, [a] => some (scroll_up env st a)
  | .search_google, [q] => some (search_google env cfg st q)
  | .open_tab, [] => some (open_tab env cfg st none)
  | .open_tab, [u] => some (open_tab env cfg st (some u))
  | .switch_tab, [i] => some (switch_tab st (.pstr i))
  | .close_tab, [] => some (close_tab env st)
  | .extract_all_links, [] => some (extract_all_links env st)
  | .extract_all_text, [] => some (extract_all_text env sd st)
  | .upload_file, [s, f] => some (upload_file env cfg st s f)
  | _, _ => none

/-- Modeled: the text of the `TypeError` raised by a wrong-arity call at
lines 836-843.  The interpreter's exact wording matters to no claim; only
that the resulting message is nonempty and names the action. -/
def typeErrorText (nm : Str) : Str :=
  nm ++ ("() called with an invalid number of arguments").data

/-- An f-string renders an absent optional as `None`. -/
def optStr : Option Str → Str
  | some s => s
  | none => ("None").data

/-- `str(step_result.get('next_goal', ''))`. -/
def optGoalStr : Option Str → Str
  | some s => s
  | none => []

/-- `', '.join(params)`. -/
def joinParams (params : List Str) : Str :=
  List.intercalate ((", ").data) params

/-- Processing of the parsed matches of one reply (lines 797-903): scan in
order; a recognized built-in has `next_goal` set and its handler called —
a successful call appends the rendered outcome to the prompt and stops
the scan (`break`), a wrong-arity `TypeError` records an error and
continues; a custom controller action is dispatched through
`execute_action` (which never raises) and stops the scan; an unknown name
records an error and continues.  The third component reports which match
index had its handler run — bookkeeping for the theorems, discarded by
the loop itself. -/
def processMatches (env : Env) (cfg : Config) (sd : SensitiveData)
    (ctl : ControllerM) :
    AgentState → StepRec → Nat → List (Str × Str) → AgentState × StepRec × Option Nat
  | st, sr, _, [] => (st, sr, none)
  | st, sr, idx, (nm, pstr) :: rest =>
    match List.lookup nm action_map with
    | some b =>
        let params := parseParams pstr
        let sr := { sr with next_goal := some (nm ++ (("(").data) ++
          joinParams params ++ ((")").data)) }
        match runBuiltin env cfg sd b params st with
        | some arst =>
            let ar := arst.1
            let st := arst.2
            let line := ("\n\nAção: ").data ++ nm ++ (("(").data) ++ joinParams params ++
              ((")").data) ++ ("\nResultado: ").data ++
              (if ar.success then optStr ar.extracted_content else optStr ar.error)
            ({ st with prompt := st.prompt ++ line }, sr, some idx)
        | none =>
            let em := ("Erro ao executar ").data ++ nm ++ (": ").data ++ typeErrorText nm
            processMatches env cfg sd ctl
              (pushErrPrompt st em
                (("\n\nErro na ação ").data ++ nm ++ (": ").data ++ em))
              sr (idx+1) rest
    | none =>
      if (List.lookup nm ctl).isSome then
        let aps := unmaskCustomParams sd (parseCustomParams pstr)
        let ar := execute_action ctl nm (aps.map (fun kv => (kv.1, PyVal.vStr kv.2))) true
        let line := ("\n\nAção personalizada: ").data ++ nm ++ (("(").data) ++ pstr ++
          ((")").data) ++ ("\nResultado: ").data ++
          (if ar.success then optStr ar.extracted_content else optStr ar.error)
        let st := { st with prompt := st.prompt ++ line }
        let sr := { sr with next_goal := some (nm ++ (("(").data) ++ pstr ++
          ((")").data)) }
        (st, sr, some idx)
      else
        let em := ("Ação desconhecida: ").data ++ nm
        processMatches env cfg sd ctl
          (pushErrPrompt st em
            (("\n\nErro: ").data ++ em ++ (". Por favor, use uma ação válida.").data))
          sr (idx+1) rest

/-! ## The agent loop (lines 730-938) -/

/-- The completion vocabulary of lines 906-907. -/
def completion_indicators : List Str :=
  [("concluído").data, ("completo").data, ("finalizado").data,
   ("completada").data, ("terminada").data, ("finished").data,
   ("complete").data, ("done").data, ("completed").data,
   ("resultado final").data]

/-- `any(indicator in llm_response.lower() for indicator in ...)`. -/
def hasCompletionIndicator (reply : Str) : Bool :=
  completion_indicators.any (fun ind => strIn ind (pyLower reply))

/-- One iteration of the while-loop (lines 761-933) at step number `n`
(the value of `step_count` after its increment).  Returns the new state
and whether the loop `break`s (completion).  The only in-step statement
that can raise to the per-step `except` is the vision screenshot: the LLM
client and every handler catch their own failures. -/
def runStep (env : Env) (cfg : Config) (sd : SensitiveData) (ctl : ControllerM)
    (n : Nat) (st : AgentState) : AgentState × Bool :=
  match (if cfg.use_vision then env.visionShotExn n else none) with
  | some e =>
      let em := ("Erro no passo ").data ++ (toString n).data ++ (": ").data ++ e
      let st := pushErr st em
      ({ st with prompt := st.prompt ++ ("\n\nOcorreu um erro: ").data ++ em ++
         (". Por favor, tente uma abordagem alternativa.").data }, false)
  | none =>
    let reply := env.llmReply n
    let sr : StepRec := { step := n, evaluation_previous_goal := reply }
    let ms := findMatches reply
    if ms ≠ [] then
      let out := processMatches env cfg sd ctl st sr 0 ms
      let st := out.1
      let sr := out.2.1
      let st :=
        if ¬ strIn (("screenshot(").data) (optGoalStr sr.next_goal) then
          (take_screenshot env st).2
        else st
      ({ st with res := { st.res with steps := st.res.steps ++ [sr] } }, false)
    else
      if hasCompletionIndicator reply then
        let sr := { sr with next_goal := some (("Tarefa concluída").data) }
        let st := { st with res := { st.res with
          output := reply,
          steps := st.res.steps ++ [sr],
          status := ("finished").data } }
        (st, true)
      else
        ({ st with prompt := st.prompt ++
           ("\n\nPor favor, indique uma ação específica a ser realizada. Use comandos como navigate(), click(), type(), etc.").data },
         false)

/-- The while-loop of lines 761-933: `fuel` is `max_steps - step_count`,
`n` is the current `step_count`.  Returns the final step count and
state. -/
def runLoop (env : Env) (cfg : Config) (sd : SensitiveData) (ctl : ControllerM) :
    Nat → Nat → AgentState → Nat × AgentState
  | 0, n, st => (n, st)
  | fuel+1, n, st =>
      let out := runStep env cfg sd ctl (n+1) st
      if out.2 then (n+1, out.1) else runLoop env cfg sd ctl fuel (n+1) out.1

/-- `AGENT_SYSTEM_PROMPT` (lines 151-187), verbatim. -/
def AGENT_SYSTEM_PROMPT : Str :=
  ("\nVocê é um agente de IA designado para ajudar com tarefas de navegação web. Você usará o navegador para completar tarefas conforme instruções. Siga estas diretrizes:\n\n1. Planeje cuidadosamente cada etapa antes de executá-la.\n2. Use o navegador para interagir com sites e aplicativos web.\n3. Quando necessário, capture screenshots para documentar seu progresso.\n4. Ao final, forneça um resumo claro do que foi realizado.\n\nVocê pode executar as seguintes ações:\n- navigate(url): Navegar para uma URL específica\n- click(selector): Clicar em um elemento na página\n- type(selector, text): Digitar texto em um campo\n- screenshot(): Capturar screenshot da página atual\n- extract_text(selector): Extrair texto de um elemento\n- wait(seconds): Esperar um número específico de segundos\n- scroll_down(amount): Rolar a página para baixo\n- scroll_up(amount): Rolar a página para cima\n- search_google(query): Pesquisar no Google\n- open_tab(url): Abrir uma nova aba com URL\n- switch_tab(index): Alternar para outra aba\n- close_tab(): Fechar a aba atual\n- extract_all_links(): Extrair todos os links da página\n- extract_all_text(): Extrair todo o texto da página\n- upload_file(selector, file_path): Fazer upload de arquivo\n\nFunções personalizadas disponíveis:\n- debug_message(message): Exibe uma mensagem de depuração no console\n- ask_human(question): Pergunta ao usuário e retorna a resposta\n- upload_file(selector, file_path): Faz upload de um arquivo para um elemento na página\n- notify_user(message, type): Exibe uma notificação para o usuário\n- save_to_file(content, filename): Salva conteúdo em um arquivo\n- extract_tables(): Extrai tabelas da página atual\n\nAnalise a tarefa, divida-a em etapas lógicas e execute-as sequencialmente. Se encontrar um obstáculo, tente contorná-lo ou explique por que não é possível continuar.\n\nINSTRUÇÕES PARA A TAREFA:\n").data

/-- `SensitiveDataManager.get_placeholder_description` (lines 160-178). -/
def placeholderDescription (sd : SensitiveData) : Str :=
  if sd = [] then []
  else
    ("DADOS SENSÍVEIS:\nOs seguintes placeholders serão usados para proteger dados sensíveis:\n").data ++
    sd.foldl (fun acc e => acc ++ ("- ").data ++ marker e.1 ++
      (": Utilize este placeholder quando precisar referenciar este dado sensível\n").data) [] ++
    ("\nNUNCA tente adivinhar ou descobrir os valores reais destes dados. Use sempre os placeholders.").data

/-- The step-ceiling output text (line 938). -/
def stepLimitMessage : Str :=
  ("A tarefa atingiu o limite de passos. Avanço parcial registrado.").data

/-- The post-loop fixup of lines 936-938: when the loop ran out of steps
while still `running`, force `finished` with the step-ceiling output. -/
def finalizeResult (maxSteps : Nat) (out : Nat × AgentState) : TaskResult :=
  if maxSteps ≤ out.1 ∧ out.2.res.status = ("running").data then
    { out.2.res with status := ("finished").data, output := stepLimitMessage }
  else out.2.res

/-- `run_agent_task`, modeled from the entry of the agent loop with setup
succeeded: Playwright launch, video-recording management, and temp-file
cleanup have no effect on the returned result when they succeed (a setup
failure aborts before the loop and is outside the loop claims), and
`initial_actions` is left at its default (unconfigured).  The global
sensitive-data manager is modeled per run with the task's entries. -/
def run_agent_task (env : Env) (cfg : Config) (sd : SensitiveData)
    (ctl : ControllerM) (task_instructions : Str) : TaskResult :=
  let instr :=
    if sd ≠ [] then
      mask_prompt sd task_instructions ++ ("\n\n").data ++ placeholderDescription sd
    else task_instructions
  let prompt0 := AGENT_SYSTEM_PROMPT ++ instr ++
    (match cfg.output_format with
     | some f =>
        ("\n\nIMPORTANTE: Você deve retornar o resultado final no seguinte formato JSON:\n").data ++ f
     | none => [])
  let st0 : AgentState :=
    { tabs := [0], current_tab_index := 0, nextPage := 1, shotCount := 0,
      sleeps := [], prompt := prompt0, res := initResult }
  finalizeResult cfg.max_steps (runLoop env cfg sd ctl cfg.max_steps 0 st0)

/-! ## Specification-side notions about the match scan -/

/-- The argument counts accepted by each built-in's signature (used to
characterize which calls of lines 834-843 bind without `TypeError`). -/
def arityOk : BName → Nat → Bool
  | .navigate, 1 => true
  | .click, 1 => true
  | .type_text, 2 => true
  | .screenshot, 0 => true
  | .extract_text, 1 => true
  | .wait, 1 => true
  | .scroll_down, 0 => true
  | .scroll_down, 1 => true
  | .scroll_up, 0 => true
  | .scroll_up, 1 => true
  | .search_google, 1 => true
  | .open_tab, 0 => true
  | .open_tab, 1 => true
  | .switch_tab, 1 => true
  | .close_tab, 0 => true
  | .extract_all_links, 0 => true
  | .extract_all_text, 0 => true
  | .upload_file, 2 => true
  | _, _ => false

/-- Whether a name is recognized by the dispatcher: a built-in of
`action_map` or a registered custom controller action. -/
def recognizedName (ctl : ControllerM) (nm : Str) : Bool :=
  (List.lookup nm action_map).isSome || (List.lookup nm ctl).isSome

/-- Whether the scan would execute a given match: a built-in whose parsed
parameter count binds, or a registered custom action (whose dispatch
catches its own failures and never raises). -/
def executableMatch (ctl : ControllerM) (m : Str × Str) : Bool :=
  match List.lookup m.1 action_map with
  | some b => arityOk b (parseParams m.2).length
  | none => (List.lookup m.1 ctl).isSome

/-- Index of the first executable match of a reply. -/
def firstExecIdx (ctl : ControllerM) : List (Str × Str) → Option Nat
  | [] => none
  | m :: rest =>
      if executableMatch ctl m then some 0
      else (firstExecIdx ctl rest).map (· + 1)

/-- How many matches the scan examines: up to and including the executed
one, or all of them when none executes. -/
def processedCount (ctl : ControllerM) (ms : List (Str × Str)) : Nat :=
  match firstExecIdx ctl ms with
  | some k => k + 1
  | none => ms.length

/-- The unknown-action error message (line 900). -/
def unknownActionMsg (nm : Str) : Str := ("Ação desconhecida: ").data ++ nm

/-- What built-in handlers may do to the shared state: anything except
touching the prompt, the recorded steps, the status or the output, and
the error list only ever grows by appending. -/
def FrameOK (st st' : AgentState) : Prop :=
  st'.prompt = st.prompt ∧ st'.res.steps = st.res.steps ∧
  st'.res.status = st.res.status ∧ st'.res.output = st.res.output ∧
  ∃ q, st'.res.errors = st.res.errors ++ q

/-- An LLM reply none of whose matches carries a recognized action name,
and which contains no completion indicator. -/
def inertReply (ctl : ControllerM) (r : Str) : Prop :=
  (∀ m ∈ findMatches r, recognizedName ctl m.1 = false) ∧
  hasCompletionIndicator r = false

/-- What one reply's scan may do to the state: the prompt and the error
list only grow, while recorded steps, status and output are untouched. -/
def ScanOK (st st' : AgentState) : Prop :=
  (∃ q, st'.prompt = st.prompt ++ q) ∧ st'.res.steps = st.res.steps ∧
  st'.res.status = st.res.status ∧ st'.res.output = st.res.output ∧
  ∃ q, st'.res.errors = st.res.errors ++ q

/-- The corrective text the scan appends to the prompt for an unknown
action name (line 902). -/
def unknownPromptText (nm : Str) : Str :=
  ("\n\nErro: ").data ++ unknownActionMsg nm ++
    (". Por favor, use uma ação válida.").data

/-- The error message recorded when a recognized built-in's call raises
(line 851): `f"Erro ao executar {action_name}: {str(action_ex)}"`, with
the argument-count `TypeError` as the exception. -/
def typeErrorMsg (nm : Str) : Str :=
  ("Erro ao executar ").data ++ nm ++ (": ").data ++ typeErrorText nm

/-- The corrective text the scan appends to the prompt after such a
`TypeError` (line 853): `f"\n\nErro na ação {action_name}: {error_msg}"`. -/
def typeErrorPromptText (nm : Str) : Str :=
  ("\n\nErro na ação ").data ++ nm ++ (": ").data ++ typeErrorMsg nm

/-! ## Atom decompositions of a text, for the masking round trip -/

/-- One atom of a decomposition of a text: a literal chunk of its
characters, or a tracked occurrence of one vault entry's secret. -/
inductive Atom where
  | lit : Str → Atom
  | occ : Str × Str → Atom

/-- Render an atom list, showing each tracked occurrence through `f`. -/
def renderA (f : Str × Str → Str) : List Atom → Str
  | [] => []
  | .lit c :: rest => c ++ renderA f rest
  | .occ e :: rest => f e ++ renderA f rest

/-- The original text: each tracked occurrence shows its secret. -/
def renderO (A : List Atom) : Str := renderA (fun e => e.2) A

/-- The view at an unmasking stage: occurrences of entries satisfying
`done` are already restored to their secret, the others still show
their bracketed placeholder. -/
def renderSt (done : Str × Str → Bool) (A : List Atom) : Str :=
  renderA (fun e => if done e then e.2 else marker e.1) A

/-- The fully masked view: every occurrence shows its marker. -/
def renderM (A : List Atom) : Str := renderA (fun e => marker e.1) A

/-- Prepend a character to a decomposition, merging it into a leading
literal chunk when there is one. -/
def consLit (c : Char) : List Atom → List Atom
  | .lit d :: rest => .lit (c :: d) :: rest
  | A => .lit [c] :: A

/-- Split a literal chunk at the left-to-right occurrences of entry
`e`'s secret, mirroring the scan of `replaceAllF e.2 (marker e.1)`. -/
def chunkAtoms (e : Str × Str) : Nat → Str → List Atom
  | _, [] => []
  | 0, s => [.lit s]
  | fuel+1, c :: cs =>
      if e.2.isPrefixOf (c :: cs) then
        Atom.occ e :: chunkAtoms e fuel ((c :: cs).drop e.2.length)
      else
        consLit c (chunkAtoms e fuel cs)

/-- Apply one stage of `mask_prompt` (masking entry `e`) to a
decomposition. -/
def maskAtoms (e : Str × Str) : List Atom → List Atom
  | [] => []
  | .lit c :: rest => chunkAtoms e c.length c ++ maskAtoms e rest
  | .occ e2 :: rest => Atom.occ e2 :: maskAtoms e rest

/-- The leading atom, if any, is not a literal chunk. -/
def headNotLit : List Atom → Prop
  | Atom.lit _ :: _ => False
  | _ => True

/-- No two adjacent literal chunks. -/
def AltOK : List Atom → Prop
  | [] => True
  | Atom.lit _ :: rest => headNotLit rest ∧ AltOK rest
  | Atom.occ _ :: rest => AltOK rest

/-- Every tracked occurrence comes from the vault `M`. -/
def occsIn (A : List Atom) (M : SensitiveData) : Prop :=
  ∀ e, Atom.occ e ∈ A → e ∈ M

/-- The well-formedness conditions on a sensitive-data vault used by the
masking round trip: secrets non-empty and bracket-free, placeholders
bracket-free with pairwise-distinct names, and no secret a substring of
a placeholder. -/
structure VaultOK (M : SensitiveData) : Prop where
  sec_ne : ∀ e ∈ M, e.2 ≠ []
  sec_bf : ∀ e ∈ M, '[' ∉ e.2 ∧ ']' ∉ e.2
  ph_bf : ∀ e ∈ M, '[' ∉ e.1 ∧ ']' ∉ e.1
  keys_nodup : (M.map Prod.fst).Nodup
  sec_not_ph : ∀ e ∈ M, ∀ e2 ∈ M, ¬ e.2 <:+: e2.1

/-! ## Concrete instances used by witnesses -/

/-- A concrete oracle assignment for witnesses: every browser call
succeeds with benign values. -/
def dummyEnv : Env :=
  { llmReply := fun _ => [],
    visionShotExn := fun _ => none,
    shot := fun n => .ok ((("shot").data) ++ (toString n).data),
    highlight := fun _ => none,
    goto := fun _ => .ok (some 200),
    click := fun _ => .ok (),
    fill := fun _ _ => .ok (),
    textContent := fun _ => .ok (("text").data),
    evalJs := fun _ => .ok (),
    pageLinks := .ok [],
    pageText := .ok (("page").data),
    searchAfterNav := fun _ => .ok (),
    newPageExn := none,
    closePageExn := none,
    setFiles := fun _ _ => .ok () }

/-- The loop's starting browser/loop state with an empty prompt. -/
def stW : AgentState :=
  { tabs := [0], current_tab_index := 0, nextPage := 1, shotCount := 0,
    sleeps := [], prompt := [], res := initResult }

/-- The default configuration. -/
def cfgW : Config := {}

/-- A one-step configuration. -/
def cfg1 : Config := { max_steps := 1 }

/-- Oracles whose LLM always answers with a single unrecognized
invocation. -/
def envC6 : Env := { dummyEnv with llmReply := fun _ => ("foo(1)").data }

/-- A nonempty error: the result carries `some e` with `e` a non-empty string. -/
def hasError (e : Option Str) : Prop := ∃ m, e = some m ∧ m ≠ []

/-- A one-entry vault whose placeholder name equals the text. -/
def sdRT : SensitiveData := [((("user").data), (("s3cret").data))]

/-- A text that is exactly the bare placeholder name of `sdRT`. -/
def tRT : Str := ("user").data

/-- A two-entry vault for the round-trip witness. -/
def sdRT2 : SensitiveData :=
  [((("user").data), (("abc").data)), ((("pass").data), (("xyz").data))]

/-- A text containing both secrets of `sdRT2`. -/
def tRT2 : Str := ("login abc with xyz now").data

/-! ## Claim C5 -/

/-- C5: `Controller.execute_action` never propagates an exception: an
unregistered name yields `success = false` with a non-empty
action-not-found error, and a handler that raises yields
`success = false` with a non-empty error describing the failure. -/
theorem C5_execute_action_never_propagates (ctl : ControllerM) (nm : Str)
    (params : List (Str × PyVal)) (browser : Bool) :
    (List.lookup nm ctl = none →
      (execute_action ctl nm params browser).success = false ∧
      hasError (execute_action ctl nm params browser).error) ∧
    (∀ f e, List.lookup nm ctl = some f →
      f.run (f.wantsBrowser && browser) params = .exn e →
      (execute_action ctl nm params browser).success = false ∧
      hasError (execute_action ctl nm params browser).error) := by
  constructor
  · intro h
    unfold execute_action
    rw [h]
    exact ⟨rfl, _, rfl, by simp⟩
  · intro f e hf he
    unfold execute_action
    rw [hf]
    dsimp only
    rw [he]
    exact ⟨rfl, _, rfl, by simp⟩

/-- A handler that always raises, for the C5 witness. -/
def raiseHandler : Handler :=
  { wantsBrowser := false
    run := fun _ _ => .exn (("kaput").data) }

/-- A registry with one raising handler, for the C5 witness. -/
def ctlRaise : ControllerM := [((("boom").data), raiseHandler)]

/-- Witness for C5 at a concrete unknown name and a concrete raising
handler. -/
theorem C5_execute_action_never_propagates_witness :
    ((execute_action ctlRaise (("nope").data) [] false).success = false ∧
      hasError (execute_action ctlRaise (("nope").data) [] false).error) ∧
    ((execute_action ctlRaise (("boom").data) [] false).success = false ∧
      hasError (execute_action ctlRaise (("boom").data) [] false).error) := by
  constructor
  · exact (C5_execute_action_never_propagates ctlRaise (("nope").data) [] false).1 rfl
  · exact (C5_execute_action_never_propagates ctlRaise (("boom").data) [] false).2
      raiseHandler (("kaput").data) rfl rfl

/-! ## Claim C9 -/

/-- C9: a handler that returns normally with a value that is not an
`ActionResult` is wrapped as a successful result whose extracted content
is the value's string rendering and whose error is absent. -/
theorem C9_plain_return_wrapped (ctl : ControllerM) (nm : Str)
    (params : List (Str × PyVal)) (browser : Bool) (f : Handler) (v : PyVal)
    (hl : List.lookup nm ctl = some f)
    (hr : f.run (f.wantsBrowser && browser) params = .ret v)
    (hv : ∀ r, v ≠ .vRes r) :
    execute_action ctl nm params browser =
      { success := true, extracted_content := some (pyValStr v), error := none } := by
  unfold execute_action
  rw [hl]
  dsimp only
  rw [hr]
  cases v with
  | vRes r => exact absurd rfl (hv r)
  | vStr s => rfl
  | vInt n => rfl
  | vBool b => rfl
  | vNone => rfl

/-- A handler returning a plain string, for the C9 witness. -/
def plainHandler : Handler :=
  { wantsBrowser := false
    run := fun _ _ => .ret (.vStr (("olá").data)) }

/-- A registry with one handler returning a plain string, for the C9
witness. -/
def ctlPlain : ControllerM := [((("hello").data), plainHandler)]

/-- Witness for C9 at a concrete handler returning a plain string. -/
theorem C9_plain_return_wrapped_witness :
    execute_action ctlPlain (("hello").data) [] false =
      { success := true, extracted_content := some ((("olá").data)), error := none } :=
  C9_plain_return_wrapped ctlPlain (("hello").data) [] false
    plainHandler (.vStr (("olá").data)) rfl rfl (fun r h => by cases h)

/-! ## Claim C7 -/

/-- C7: closing the sole remaining tab is rejected with a failed result
and a non-empty error, leaving the tab list and the current index
unchanged; consequently no tab operation ever empties a non-empty tab
set (`close_tab` is the only shrinking operation). -/
theorem C7_close_tab_sole_tab_rejected (env : Env) (cfg : Config)
    (st : AgentState) :
    (st.tabs.length = 1 →
      (close_tab env st).1.success = false ∧
      hasError (close_tab env st).1.error ∧
      (close_tab env st).2.tabs = st.tabs ∧
      (close_tab env st).2.current_tab_index = st.current_tab_index) ∧
    (1 ≤ st.tabs.length → 1 ≤ (close_tab env st).2.tabs.length) ∧
    (∀ url, 1 ≤ st.tabs.length → 1 ≤ (open_tab env cfg st url).2.tabs.length) ∧
    (∀ i, 1 ≤ st.tabs.length → 1 ≤ (switch_tab st i).2.tabs.length) := by
  refine ⟨?_, ?_, ?_, ?_⟩
  · intro h1
    have hle : st.tabs.length ≤ 1 := le_of_eq h1
    unfold close_tab
    rw [if_pos hle]
    exact ⟨rfl, ⟨_, rfl, by simp⟩, rfl, rfl⟩
  · intro h1
    unfold close_tab
    split
    · exact h1
    · split
      · cases henv : env.closePageExn with
        | some e => simpa [pushErr] using h1
        | none => simp only [List.length_eraseIdx]; split <;> omega
      · simpa [pushErr] using h1
  · intro url h1
    have hnav : ∀ s u, (navigate env cfg s u).2.tabs = s.tabs := by
      intro s u
      unfold navigate
      dsimp only
      cases hr : navRejection cfg (normalizeUrl u) with
      | some m => rfl
      | none =>
          cases hg : env.goto (normalizeUrl u) with
          | ok c => rfl
          | error e => simp [pushErr]
    unfold open_tab
    cases henv : env.newPageExn with
    | some e => simpa [pushErr] using h1
    | none =>
        simp only []
        split
        · simp only [hnav, List.length_append]; omega
        · simp only [List.length_append]; omega
  · intro i h1
    cases i with
    | pint k =>
        unfold switch_tab
        dsimp only
        split
        · exact h1
        · exact h1
    | pstr s => simpa [switch_tab, pushErr] using h1

/-- Witness for C7 at the one-tab starting state. -/
theorem C7_close_tab_sole_tab_rejected_witness :
    ((close_tab dummyEnv stW).1.success = false ∧
      hasError (close_tab dummyEnv stW).1.error ∧
      (close_tab dummyEnv stW).2.tabs = stW.tabs ∧
      (close_tab dummyEnv stW).2.current_tab_index = stW.current_tab_index) ∧
    (1 ≤ (close_tab dummyEnv stW).2.tabs.length) := by
  have h := C7_close_tab_sole_tab_rejected dummyEnv cfgW stW
  exact ⟨h.1 rfl, h.2.1 (by decide)⟩

/-! ## Claim C10 -/

/-- C10: `switch_tab` with an integer index outside `[0, len(tabs))`
returns a failed result with a non-empty error and leaves both the
current index and the tab list unchanged. -/
theorem C10_switch_tab_invalid_index (st : AgentState) (i : Int)
    (h : ¬ (0 ≤ i ∧ i < (st.tabs.length : Int))) :
    (switch_tab st (.pint i)).1.success = false ∧
    hasError (switch_tab st (.pint i)).1.error ∧
    (switch_tab st (.pint i)).2.tabs = st.tabs ∧
    (switch_tab st (.pint i)).2.current_tab_index = st.current_tab_index := by
  unfold switch_tab
  dsimp only
  rw [if_neg h]
  exact ⟨rfl, ⟨_, rfl, by simp⟩, rfl, rfl⟩

/-- Witness for C10 at index 5 against the single-tab state. -/
theorem C10_switch_tab_invalid_index_witness :
    (switch_tab stW (.pint 5)).1.success = false ∧
    hasError (switch_tab stW (.pint 5)).1.error ∧
    (switch_tab stW (.pint 5)).2.tabs = stW.tabs ∧
    (switch_tab stW (.pint 5)).2.current_tab_index = stW.current_tab_index :=
  C10_switch_tab_invalid_index stW 5 (by decide)

/-! ## Claim C8 -/

/-- C8 (code bug): when the LLM requests `wait(5)`, the dispatcher passes
the parser's string `"5"`, `min(seconds, 30)` raises `TypeError`, and the
action reports failure having slept nothing — whereas with the annotated
`int` argument the clamped sleep `min(n, 30) ≤ 30` would be performed and
reported as success. -/
theorem C8_wait_llm_request_fails :
    (runBuiltin dummyEnv cfgW [] .wait [(("5").data)] stW =
      some (wait stW (.pstr (("5").data)))) ∧
    (wait stW (.pstr (("5").data))).1.success = false ∧
    (wait stW (.pstr (("5").data))).2.sleeps = [] ∧
    (wait stW (.pint 5)).1.success = true ∧
    (wait stW (.pint 5)).2.sleeps = [5] ∧
    (wait stW (.pint 99)).2.sleeps = [30] := by
  refine ⟨rfl, rfl, rfl, rfl, ?_, ?_⟩ <;> decide

/-! ## Claim C2 -/

/-- The sensitive-data map of the C2 failing input. -/
def sdLeak : SensitiveData :=
  [ ((("u").data), (("alice").data)), ((("p").data), (("hunter2").data)) ]

/-- C2 (code bug): with two configured secrets both occurring in the text
passed to `type`, the log-masking loop of `type_text` — which replaces
into the original `text` on every iteration instead of accumulating —
leaves the secret `alice` unmasked in the extracted content, and the
loop appends that content verbatim to the LLM prompt. -/
theorem C2_type_text_leaks_secret_into_prompt :
    type_text_mask_log sdLeak (("alice hunter2").data) = ("alice [p]").data ∧
    strIn (("alice").data)
      (optStr (type_text dummyEnv cfgW sdLeak stW (("sel").data)
        (("alice hunter2").data)).1.extracted_content) = true ∧
    strIn (("alice").data)
      ((processMatches dummyEnv cfgW sdLeak [] stW
        { step := 1, evaluation_previous_goal := [] } 0
        [((("type").data), (("sel, alice hunter2").data))]).1.prompt) = true := by
  refine ⟨by decide, by decide, by decide⟩

/-! ## Frame lemmas for the built-in handlers -/

theorem frameOK_refl (st : AgentState) : FrameOK st st :=
  ⟨rfl, rfl, rfl, rfl, [], by simp⟩

theorem frameOK_trans {a b c : AgentState} (h1 : FrameOK a b)
    (h2 : FrameOK b c) : FrameOK a c := by
  obtain ⟨p1, s1, t1, o1, q1, e1⟩ := h1
  obtain ⟨p2, s2, t2, o2, q2, e2⟩ := h2
  exact ⟨p2.trans p1, s2.trans s1, t2.trans t1, o2.trans o1, q1 ++ q2,
    by rw [e2, e1, List.append_assoc]⟩

theorem pushErr_frame (st : AgentState) (e : Str) : FrameOK st (pushErr st e) :=
  ⟨rfl, rfl, rfl, rfl, [e], rfl⟩

theorem navigate_frame (env : Env) (cfg : Config) (st : AgentState) (u : Str) :
    FrameOK st (navigate env cfg st u).2 := by
  unfold navigate
  dsimp only
  split
  · exact frameOK_refl st
  · split
    · exact ⟨rfl, rfl, rfl, rfl, [], by simp⟩
    · exact pushErr_frame st _

theorem click_frame (env : Env) (cfg : Config) (st : AgentState) (s : Str) :
    FrameOK st (click env cfg st s).2 := by
  unfold click
  split
  · exact pushErr_frame st _
  · exact frameOK_refl st

theorem type_text_frame (env : Env) (cfg : Config) (sd : SensitiveData)
    (st : AgentState) (s t : Str) : FrameOK st (type_text env cfg sd st s t).2 := by
  unfold type_text
  dsimp only
  split
  · exact pushErr_frame st _
  · exact frameOK_refl st

theorem take_screenshot_frame (env : Env) (st : AgentState) :
    FrameOK st (take_screenshot env st).2 := by
  unfold take_screenshot
  split
  · exact ⟨rfl, rfl, rfl, rfl, [], by simp⟩
  · exact ⟨rfl, rfl, rfl, rfl, [_], rfl⟩

theorem extract_text_frame (env : Env) (cfg : Config) (sd : SensitiveData)
    (st : AgentState) (s : Str) : FrameOK st (extract_text env cfg sd st s).2 := by
  unfold extract_text
  dsimp only
  split
  · exact pushErr_frame st _
  · exact frameOK_refl st

theorem wait_frame (st : AgentState) (p : PyParam) : FrameOK st (wait st p).2 := by
  unfold wait
  split
  · exact ⟨rfl, rfl, rfl, rfl, [], by simp⟩
  · exact pushErr_frame st _

theorem scroll_down_frame (env : Env) (st : AgentState) (a : Str) :
    FrameOK st (scroll_down env st a).2 := by
  unfold scroll_down
  split
  · exact frameOK_refl st
  · exact pushErr_frame st _

theorem scroll_up_frame (env : Env) (st : AgentState) (a : Str) :
    FrameOK st (scroll_up env st a).2 := by
  unfold scroll_up
  split
  · exact frameOK_refl st
  · exact pushErr_frame st _

theorem search_google_frame (env : Env) (cfg : Config) (st : AgentState)
    (q : Str) : FrameOK st (search_google env cfg st q).2 := by
  unfold search_google
  dsimp only
  split
  · exact navigate_frame env cfg st _
  · split
    · exact navigate_frame env cfg st _
    · exact frameOK_trans (navigate_frame env cfg st _) (pushErr_frame _ _)

theorem open_tab_frame (env : Env) (cfg : Config) (st : AgentState)
    (url : Option Str) : FrameOK st (open_tab env cfg st url).2 := by
  have hstep : FrameOK st { st with tabs := st.tabs ++ [st.nextPage], nextPage := st.nextPage + 1, current_tab_index := st.tabs.length } :=
    ⟨rfl, rfl, rfl, rfl, [], by simp⟩
  unfold open_tab
  split
  · exact pushErr_frame st _
  · dsimp only
    split
    · exact frameOK_trans hstep (navigate_frame env cfg _ _)
    · exact hstep

theorem switch_tab_frame (st : AgentState) (p : PyParam) :
    FrameOK st (switch_tab st p).2 := by
  unfold switch_tab
  rcases p with s | i
  · exact pushErr_frame st _
  · dsimp only
    split
    · exact ⟨rfl, rfl, rfl, rfl, [], by simp⟩
    · exact frameOK_refl st

theorem close_tab_frame (env : Env) (st : AgentState) :
    FrameOK st (close_tab env st).2 := by
  unfold close_tab
  split
  · exact frameOK_refl st
  · split
    · split
      · exact pushErr_frame st _
      · exact ⟨rfl, rfl, rfl, rfl, [], by simp⟩
    · exact pushErr_frame st _

theorem extract_all_links_frame (env : Env) (st : AgentState) :
    FrameOK st (extract_all_links env st).2 := by
  unfold extract_all_links
  split
  · exact pushErr_frame st _
  · exact frameOK_refl st

theorem extract_all_text_frame (env : Env) (sd : SensitiveData)
    (st : AgentState) : FrameOK st (extract_all_text env sd st).2 := by
  unfold extract_all_text
  split
  · exact pushErr_frame st _
  · exact frameOK_refl st

theorem upload_file_frame (env : Env) (cfg : Config) (st : AgentState)
    (s f : Str) : FrameOK st (upload_file env cfg st s f).2 := by
  unfold upload_file
  split
  · exact pushErr_frame st _
  · exact frameOK_refl st

/-- Every built-in that binds obeys the frame discipline. -/
theorem runBuiltin_frame (env : Env) (cfg : Config) (sd : SensitiveData)
    (b : BName) (params : List Str) (st : AgentState) :
    ∀ out, runBuiltin env cfg sd b params st = some out → FrameOK st out.2 := by
  intro out h
  cases b <;> rcases params with _ | ⟨p1, _ | ⟨p2, _ | t⟩⟩ <;>
    simp only [runBuiltin] at h <;>
    first
      | exact Option.noConfusion h
      | (injection h with h2
         subst h2
         first
           | apply navigate_frame
           | apply click_frame
           | apply type_text_frame
           | apply take_screenshot_frame
           | apply extract_text_frame
           | apply wait_frame
           | apply scroll_down_frame
           | apply scroll_up_frame
           | apply search_google_frame
           | apply open_tab_frame
           | apply switch_tab_frame
           | apply close_tab_frame
           | apply extract_all_links_frame
           | apply extract_all_text_frame
           | apply upload_file_frame)

/-- The scan only grows the prompt and the error list, and counts bind. -/
theorem runBuiltin_isSome (env : Env) (cfg : Config) (sd : SensitiveData)
    (b : BName) (params : List Str) (st : AgentState) :
    (runBuiltin env cfg sd b params st).isSome = arityOk b params.length := by
  cases b <;> rcases params with _ | ⟨p1, _ | ⟨p2, _ | t⟩⟩ <;> rfl

/-! ## Lemmas about the match scan -/

theorem scanOK_refl (st : AgentState) : ScanOK st st :=
  ⟨⟨[], by simp⟩, rfl, rfl, rfl, [], by simp⟩

theorem scanOK_trans {a b c : AgentState} (h1 : ScanOK a b) (h2 : ScanOK b c) :
    ScanOK a c := by
  obtain ⟨⟨p1, hp1⟩, s1, t1, o1, q1, e1⟩ := h1
  obtain ⟨⟨p2, hp2⟩, s2, t2, o2, q2, e2⟩ := h2
  exact ⟨⟨p1 ++ p2, by rw [hp2, hp1, List.append_assoc]⟩, s2.trans s1,
    t2.trans t1, o2.trans o1, q1 ++ q2, by rw [e2, e1, List.append_assoc]⟩

theorem frameOK_scanOK {a b : AgentState} (h : FrameOK a b) : ScanOK a b := by
  obtain ⟨p, s, t, o, q, e⟩ := h
  exact ⟨⟨[], by rw [p, List.append_nil]⟩, s, t, o, q, e⟩

/-- Appending to the prompt preserves the scan discipline. -/
theorem scanOK_prompt_append (st : AgentState) (q : Str) :
    ScanOK st { st with prompt := st.prompt ++ q } :=
  ⟨⟨q, rfl⟩, rfl, rfl, rfl, [], by simp⟩

/-- The error paths of the scan preserve the scan discipline. -/
theorem pushErrPrompt_scan (st : AgentState) (e p : Str) :
    ScanOK st (pushErrPrompt st e p) :=
  ⟨⟨p, rfl⟩, rfl, rfl, rfl, [e], rfl⟩

/-- The scan only grows the prompt and the error list; it never touches
the recorded steps, the status or the output. -/
theorem processMatches_scan (env : Env) (cfg : Config) (sd : SensitiveData)
    (ctl : ControllerM) :
    ∀ ms st sr i, ScanOK st (processMatches env cfg sd ctl st sr i ms).1 := by
  intro ms
  induction ms with
  | nil => intro st sr i; exact scanOK_refl st
  | cons m rest ih =>
      intro st sr i
      obtain ⟨nm, ps⟩ := m
      unfold processMatches
      cases hlb : List.lookup nm action_map with
      | some b =>
          dsimp only
          cases hrb : runBuiltin env cfg sd b (parseParams ps) st with
          | some out =>
              dsimp only
              obtain ⟨hp, hs, ht, ho, q, he⟩ := runBuiltin_frame env cfg sd b _ st out hrb
              exact ⟨⟨_, by rw [hp]⟩, hs, ht, ho, q, he⟩
          | none =>
              dsimp only
              exact scanOK_trans (pushErrPrompt_scan st _ _) (ih _ _ _)
      | none =>
          dsimp only
          cases hc : (List.lookup nm ctl).isSome with
          | true =>
              simp only [if_pos]
              exact scanOK_prompt_append st _
          | false =>
              simp only [Bool.false_eq_true, if_false]
              exact scanOK_trans (pushErrPrompt_scan st _ _) (ih _ _ _)

/-- The scan runs exactly the first executable match. -/
theorem processMatches_execIdx (env : Env) (cfg : Config) (sd : SensitiveData)
    (ctl : ControllerM) :
    ∀ ms st sr i, (processMatches env cfg sd ctl st sr i ms).2.2 =
      (firstExecIdx ctl ms).map (fun k => i + k) := by
  intro ms
  induction ms with
  | nil => intro st sr i; rfl
  | cons m rest ih =>
      intro st sr i
      obtain ⟨nm, ps⟩ := m
      cases hlb : List.lookup nm action_map with
      | some b =>
          cases hrb : runBuiltin env cfg sd b (parseParams ps) st with
          | some out =>
              have hok : executableMatch ctl (nm, ps) = true := by
                unfold executableMatch
                rw [hlb]
                dsimp only
                rw [← runBuiltin_isSome env cfg sd b (parseParams ps) st, hrb]
                rfl
              simp only [processMatches, firstExecIdx, hlb, hrb, hok, if_true]
              simp
          | none =>
              have hok : executableMatch ctl (nm, ps) = false := by
                unfold executableMatch
                rw [hlb]
                dsimp only
                rw [← runBuiltin_isSome env cfg sd b (parseParams ps) st, hrb]
                rfl
              simp only [processMatches, firstExecIdx, hlb, hrb, hok,
                Bool.false_eq_true, if_false, ih]
              cases firstExecIdx ctl rest with
              | none => rfl
              | some k =>
                  simp only [Option.map_map, Option.map_some', Function.comp,
                    Option.some.injEq]
                  omega
      | none =>
          cases hc : (List.lookup nm ctl).isSome with
          | true =>
              have hok : executableMatch ctl (nm, ps) = true := by
                unfold executableMatch
                rw [hlb]
                dsimp only
                exact hc
              simp only [processMatches, firstExecIdx, hlb, hc, hok, if_true]
              simp
          | false =>
              have hok : executableMatch ctl (nm, ps) = false := by
                unfold executableMatch
                rw [hlb]
                dsimp only
                exact hc
              simp only [processMatches, firstExecIdx, hlb, hc, hok,
                Bool.false_eq_true, if_false, ih]
              cases firstExecIdx ctl rest with
              | none => rfl
              | some k =>
                  simp only [Option.map_map, Option.map_some', Function.comp,
                    Option.some.injEq]
                  omega

theorem processedCount_cons (ctl : ControllerM) (m : Str × Str)
    (rest : List (Str × Str)) :
    processedCount ctl (m :: rest) =
      if executableMatch ctl m then 1 else processedCount ctl rest + 1 := by
  by_cases hex : executableMatch ctl m = true
  · simp [processedCount, firstExecIdx, hex]
  · simp only [processedCount, firstExecIdx, hex, Bool.false_eq_true, if_false]
    cases h : firstExecIdx ctl rest with
    | none => simp [h]
    | some k => simp [h]

theorem mem_errors_of_scanOK {st st' : AgentState} {x : Str}
    (h : ScanOK st st') (hx : x ∈ st.res.errors) : x ∈ st'.res.errors := by
  obtain ⟨_, _, _, _, q, e⟩ := h
  rw [e]
  exact List.mem_append.mpr (Or.inl hx)

theorem infix_prompt_of_scanOK {st st' : AgentState} {x : Str}
    (h : ScanOK st st') (hx : x <:+: st.prompt) : x <:+: st'.prompt := by
  obtain ⟨⟨p, hp⟩, _⟩ := h
  rw [hp]
  exact hx.trans (List.prefix_append st.prompt p).isInfix

/-- Matches after the executed one are never examined: processing only
the examined prefix produces the same outcome. -/
theorem processMatches_ignores_rest (env : Env) (cfg : Config)
    (sd : SensitiveData) (ctl : ControllerM) :
    ∀ ms st sr i,
      processMatches env cfg sd ctl st sr i ms =
        processMatches env cfg sd ctl st sr i
          (ms.take (processedCount ctl ms)) := by
  intro ms
  induction ms with
  | nil => intro st sr i; rfl
  | cons m rest ih =>
      intro st sr i
      obtain ⟨nm, ps⟩ := m
      rw [processedCount_cons]
      by_cases hex : executableMatch ctl (nm, ps) = true
      · rw [if_pos hex]
        show _ = processMatches env cfg sd ctl st sr i [(nm, ps)]
        unfold executableMatch at hex
        cases hlb : List.lookup nm action_map with
        | some b =>
            rw [hlb] at hex
            dsimp only at hex
            have hsome : (runBuiltin env cfg sd b (parseParams ps) st).isSome = true := by
              rw [runBuiltin_isSome]; exact hex
            cases hrb : runBuiltin env cfg sd b (parseParams ps) st with
            | none => rw [hrb] at hsome; cases hsome
            | some out => simp only [processMatches, hlb, hrb]
        | none =>
            rw [hlb] at hex
            dsimp only at hex
            simp only [processMatches, hlb, hex, if_true]
      · rw [if_neg hex]
        show _ = processMatches env cfg sd ctl st sr i
          ((nm, ps) :: rest.take (processedCount ctl rest))
        unfold executableMatch at hex
        cases hlb : List.lookup nm action_map with
        | some b =>
            rw [hlb] at hex
            dsimp only at hex
            have hnone : (runBuiltin env cfg sd b (parseParams ps) st).isSome = false := by
              rw [runBuiltin_isSome]
              exact Bool.not_eq_true _ ▸ Bool.of_not_eq_true hex
            cases hrb : runBuiltin env cfg sd b (parseParams ps) st with
            | some out => rw [hrb] at hnone; cases hnone
            | none =>
                simp only [processMatches, hlb, hrb]
                exact ih _ _ _
        | none =>
            rw [hlb] at hex
            dsimp only at hex
            simp only [processMatches, hlb, hex, Bool.false_eq_true, if_false]
            exact ih _ _ _

/-- Every unrecognized name among the examined matches records its
descriptive error in the error list and appends it to the prompt. -/
theorem processMatches_unknown_errors (env : Env) (cfg : Config)
    (sd : SensitiveData) (ctl : ControllerM) :
    ∀ ms st sr i j (hj : j < ms.length), j < processedCount ctl ms →
      recognizedName ctl (ms.get ⟨j, hj⟩).1 = false →
      unknownActionMsg (ms.get ⟨j, hj⟩).1 ∈
        (processMatches env cfg sd ctl st sr i ms).1.res.errors ∧
      unknownPromptText (ms.get ⟨j, hj⟩).1 <:+:
        (processMatches env cfg sd ctl st sr i ms).1.prompt := by
  intro ms
  induction ms with
  | nil => intro st sr i j hj; cases hj
  | cons m rest ih =>
      intro st sr i j hj hcount hrec
      obtain ⟨nm, ps⟩ := m
      cases j with
      | zero =>
          simp only [List.get] at hrec ⊢
          have hrec2 := hrec
          unfold recognizedName at hrec2
          rw [Bool.or_eq_false_iff] at hrec2
          obtain ⟨hb, hc⟩ := hrec2
          have hb2 : List.lookup nm action_map = none := by
            cases hlk : List.lookup nm action_map with
            | none => rfl
            | some b => rw [hlk] at hb; cases hb
          unfold processMatches
          rw [hb2]
          dsimp only
          rw [hc]
          simp only [Bool.false_eq_true, if_false]
          have hscan := processMatches_scan env cfg sd ctl rest
            (pushErrPrompt st (unknownActionMsg nm) (unknownPromptText nm)) sr (i+1)
          constructor
          · refine mem_errors_of_scanOK hscan ?_
            exact List.mem_append.mpr (Or.inr (List.mem_singleton.mpr rfl))
          · refine infix_prompt_of_scanOK hscan ?_
            exact (List.suffix_append st.prompt (unknownPromptText nm)).isInfix
      | succ j2 =>
          rw [processedCount_cons] at hcount
          by_cases hex : executableMatch ctl (nm, ps) = true
          · rw [if_pos hex] at hcount; omega
          · rw [if_neg hex] at hcount
            have hj2 : j2 < rest.length := Nat.lt_of_succ_lt_succ hj
            have hcount2 : j2 < processedCount ctl rest := Nat.lt_of_succ_lt_succ hcount
            have hget : ((nm, ps) :: rest).get ⟨j2 + 1, hj⟩ = rest.get ⟨j2, hj2⟩ := rfl
            rw [hget] at hrec ⊢
            unfold executableMatch at hex
            cases hlb : List.lookup nm action_map with
            | some b =>
                rw [hlb] at hex
                dsimp only at hex
                have hnone : (runBuiltin env cfg sd b (parseParams ps) st).isSome = false := by
                  rw [runBuiltin_isSome]
                  exact Bool.not_eq_true _ ▸ Bool.of_not_eq_true hex
                cases hrb : runBuiltin env cfg sd b (parseParams ps) st with
                | some out => rw [hrb] at hnone; cases hnone
                | none =>
                    simp only [processMatches, hlb, hrb]
                    exact ih _ _ (i+1) j2 hj2 hcount2 hrec
            | none =>
                rw [hlb] at hex
                dsimp only at hex
                simp only [processMatches, hlb, hex, Bool.false_eq_true, if_false]
                exact ih _ _ (i+1) j2 hj2 hcount2 hrec

/-- Every recognized invocation among the examined matches whose call
does not bind — a recognized built-in called with an argument count its
signature rejects, raising `TypeError` into the `except` of lines
850-853 — records its descriptive error in the error list and appends
it to the prompt. -/
theorem processMatches_typeerror_errors (env : Env) (cfg : Config)
    (sd : SensitiveData) (ctl : ControllerM) :
    ∀ ms st sr i j (hj : j < ms.length), j < processedCount ctl ms →
      recognizedName ctl (ms.get ⟨j, hj⟩).1 = true →
      executableMatch ctl (ms.get ⟨j, hj⟩) = false →
      typeErrorMsg (ms.get ⟨j, hj⟩).1 ∈
        (processMatches env cfg sd ctl st sr i ms).1.res.errors ∧
      typeErrorPromptText (ms.get ⟨j, hj⟩).1 <:+:
        (processMatches env cfg sd ctl st sr i ms).1.prompt := by
  intro ms
  induction ms with
  | nil => intro st sr i j hj; cases hj
  | cons m rest ih =>
      intro st sr i j hj hcount hrec hex
      obtain ⟨nm, ps⟩ := m
      cases j with
      | zero =>
          simp only [List.get] at hrec hex ⊢
          unfold executableMatch at hex
          cases hlb : List.lookup nm action_map with
          | none =>
              rw [hlb] at hex
              dsimp only at hex
              unfold recognizedName at hrec
              rw [hlb] at hrec
              simp only [Option.isSome_none, Bool.false_or] at hrec
              rw [hex] at hrec
              cases hrec
          | some b =>
              rw [hlb] at hex
              dsimp only at hex
              have hnone : (runBuiltin env cfg sd b (parseParams ps) st).isSome
                  = false := by
                rw [runBuiltin_isSome]; exact hex
              cases hrb : runBuiltin env cfg sd b (parseParams ps) st with
              | some out => rw [hrb] at hnone; cases hnone
              | none =>
                  unfold processMatches
                  rw [hlb]
                  dsimp only
                  rw [hrb]
                  dsimp only
                  have hscan := processMatches_scan env cfg sd ctl rest
                    (pushErrPrompt st (typeErrorMsg nm) (typeErrorPromptText nm))
                    { sr with next_goal := some (nm ++ (("(").data) ++
                        joinParams (parseParams ps) ++ ((")").data)) } (i+1)
                  constructor
                  · refine mem_errors_of_scanOK hscan ?_
                    exact List.mem_append.mpr (Or.inr (List.mem_singleton.mpr rfl))
                  · refine infix_prompt_of_scanOK hscan ?_
                    exact (List.suffix_append st.prompt
                      (typeErrorPromptText nm)).isInfix
      | succ j2 =>
          rw [processedCount_cons] at hcount
          by_cases hexh : executableMatch ctl (nm, ps) = true
          · rw [if_pos hexh] at hcount; omega
          · rw [if_neg hexh] at hcount
            have hj2 : j2 < rest.length := Nat.lt_of_succ_lt_succ hj
            have hcount2 : j2 < processedCount ctl rest :=
              Nat.lt_of_succ_lt_succ hcount
            have hget : ((nm, ps) :: rest).get ⟨j2 + 1, hj⟩
                = rest.get ⟨j2, hj2⟩ := rfl
            rw [hget] at hrec hex ⊢
            unfold executableMatch at hexh
            cases hlb : List.lookup nm action_map with
            | some b =>
                rw [hlb] at hexh
                dsimp only at hexh
                have hnone : (runBuiltin env cfg sd b (parseParams ps) st).isSome
                    = false := by
                  rw [runBuiltin_isSome]
                  exact Bool.not_eq_true _ ▸ Bool.of_not_eq_true hexh
                cases hrb : runBuiltin env cfg sd b (parseParams ps) st with
                | some out => rw [hrb] at hnone; cases hnone
                | none =>
                    simp only [processMatches, hlb, hrb]
                    exact ih _ _ (i+1) j2 hj2 hcount2 hrec hex
            | none =>
                rw [hlb] at hexh
                dsimp only at hexh
                simp only [processMatches, hlb, hexh, Bool.false_eq_true, if_false]
                exact ih _ _ (i+1) j2 hj2 hcount2 hrec hex

/-! ## Claim C1 -/

/-- The reply of the C1 counterexample. -/
def replyC1 : Str :=
  ("Vou tirar screenshot(x) e depois screenshot() agora").data

/-- C1 (counterexample): the reply contains two recognized invocations of
`screenshot`.  The first, `screenshot(x)`, raises a `TypeError` at its
call (the handler takes no argument), so the scan moves on and runs the
SECOND recognized invocation — its screenshot is actually captured —
refuting "only the first recognized invocation is executed". -/
theorem C1_counterexample_second_recognized_runs :
    (findMatches replyC1).map Prod.fst =
      [(("screenshot").data), (("screenshot").data)] ∧
    (List.lookup (("screenshot").data) action_map).isSome = true ∧
    (processMatches dummyEnv cfgW [] [] stW
      { step := 1, evaluation_previous_goal := replyC1 } 0
      (findMatches replyC1)).2.2 = some 1 ∧
    (processMatches dummyEnv cfgW [] [] stW
      { step := 1, evaluation_previous_goal := replyC1 } 0
      (findMatches replyC1)).1.res.screenshots ≠ [] := by
  refine ⟨by decide, by decide, by decide, by decide⟩

/-- C1 (amended): when a reply contains recognized invocations, at most
one handler runs per step: the first recognized invocation whose call
binds without a `TypeError` (custom controller actions always bind).
Matches after the executed one are ignored — processing only the
examined prefix yields the same outcome — and the scan changes nothing
in the result beyond growing the prompt and the error list.  An
unrecognized action name among the examined matches appends its
descriptive error to the error list and the prompt without executing
anything, and a recognized invocation whose call raises an
argument-count `TypeError` appends its descriptive error to the error
list and the prompt while the scan continues. -/
theorem C1_amended_first_bindable_invocation_runs (env : Env) (cfg : Config)
    (sd : SensitiveData) (ctl : ControllerM) (st : AgentState) (sr : StepRec)
    (ms : List (Str × Str)) :
    (processMatches env cfg sd ctl st sr 0 ms).2.2 = firstExecIdx ctl ms ∧
    processMatches env cfg sd ctl st sr 0 ms =
      processMatches env cfg sd ctl st sr 0
        (ms.take (processedCount ctl ms)) ∧
    ScanOK st (processMatches env cfg sd ctl st sr 0 ms).1 ∧
    (∀ j (hj : j < ms.length), j < processedCount ctl ms →
      recognizedName ctl (ms.get ⟨j, hj⟩).1 = false →
      unknownActionMsg (ms.get ⟨j, hj⟩).1 ∈
        (processMatches env cfg sd ctl st sr 0 ms).1.res.errors ∧
      unknownPromptText (ms.get ⟨j, hj⟩).1 <:+:
        (processMatches env cfg sd ctl st sr 0 ms).1.prompt) ∧
    (∀ j (hj : j < ms.length), j < processedCount ctl ms →
      recognizedName ctl (ms.get ⟨j, hj⟩).1 = true →
      executableMatch ctl (ms.get ⟨j, hj⟩) = false →
      typeErrorMsg (ms.get ⟨j, hj⟩).1 ∈
        (processMatches env cfg sd ctl st sr 0 ms).1.res.errors ∧
      typeErrorPromptText (ms.get ⟨j, hj⟩).1 <:+:
        (processMatches env cfg sd ctl st sr 0 ms).1.prompt) := by
  refine ⟨?_, processMatches_ignores_rest env cfg sd ctl ms st sr 0,
    processMatches_scan env cfg sd ctl ms st sr 0,
    fun j hj hcount hrec =>
      processMatches_unknown_errors env cfg sd ctl ms st sr 0 j hj hcount hrec,
    fun j hj hcount hrec hex =>
      processMatches_typeerror_errors env cfg sd ctl ms st sr 0 j hj hcount
        hrec hex⟩
  rw [processMatches_execIdx]
  cases firstExecIdx ctl ms with
  | none => rfl
  | some k => simp

/-- Witness for the amended C1 at a concrete reply whose first match is
unrecognized, whose second is recognized but raises an argument-count
`TypeError`, and whose third is executable. -/
theorem C1_amended_first_bindable_invocation_runs_witness :
    ((processMatches dummyEnv cfgW [] [] stW
        { step := 1, evaluation_previous_goal := [] } 0
        (findMatches (("foo(1) screenshot(x) screenshot()").data))).2.2 =
      firstExecIdx [] (findMatches (("foo(1) screenshot(x) screenshot()").data))) ∧
    ScanOK stW (processMatches dummyEnv cfgW [] [] stW
        { step := 1, evaluation_previous_goal := [] } 0
        (findMatches (("foo(1) screenshot(x) screenshot()").data))).1 ∧
    unknownActionMsg (("foo").data) ∈
      (processMatches dummyEnv cfgW [] [] stW
        { step := 1, evaluation_previous_goal := [] } 0
        (findMatches (("foo(1) screenshot(x) screenshot()").data))).1.res.errors ∧
    typeErrorMsg (("screenshot").data) ∈
      (processMatches dummyEnv cfgW [] [] stW
        { step := 1, evaluation_previous_goal := [] } 0
        (findMatches (("foo(1) screenshot(x) screenshot()").data))).1.res.errors ∧
    typeErrorPromptText (("screenshot").data) <:+:
      (processMatches dummyEnv cfgW [] [] stW
        { step := 1, evaluation_previous_goal := [] } 0
        (findMatches (("foo(1) screenshot(x) screenshot()").data))).1.prompt := by
  have h := C1_amended_first_bindable_invocation_runs dummyEnv cfgW [] [] stW
    { step := 1, evaluation_previous_goal := [] }
    (findMatches (("foo(1) screenshot(x) screenshot()").data))
  refine ⟨h.1, h.2.2.1, ?_, ?_, ?_⟩
  · exact (h.2.2.2.1 0 (by decide) (by decide) (by decide)).1
  · exact (h.2.2.2.2 1 (by decide) (by decide) (by decide) (by decide)).1
  · exact (h.2.2.2.2 1 (by decide) (by decide) (by decide) (by decide)).2

/-! ## Lemmas about the loop -/

/-- A step whose reply is inert does not break the loop and leaves the
status unchanged. -/
theorem runStep_inert (env : Env) (cfg : Config) (sd : SensitiveData)
    (ctl : ControllerM) (n : Nat) (st : AgentState)
    (h : inertReply ctl (env.llmReply n)) :
    (runStep env cfg sd ctl n st).2 = false ∧
    (runStep env cfg sd ctl n st).1.res.status = st.res.status := by
  unfold runStep
  cases hv : (if cfg.use_vision then env.visionShotExn n else none) with
  | some e => exact ⟨rfl, rfl⟩
  | none =>
      dsimp only
      split
      · constructor
        · rfl
        · obtain ⟨-, -, h1, -, -⟩ := processMatches_scan env cfg sd ctl
            (findMatches (env.llmReply n)) st
            { step := n, evaluation_previous_goal := env.llmReply n } 0
          split
          · obtain ⟨-, -, h2, -, -⟩ := take_screenshot_frame env
              (processMatches env cfg sd ctl st
                { step := n, evaluation_previous_goal := env.llmReply n } 0
                (findMatches (env.llmReply n))).1
            exact h2.trans h1
          · exact h1
      · simp only [h.2, Bool.false_eq_true, if_false]
        exact ⟨by trivial, by trivial⟩

/-- With inert replies the loop consumes all its fuel without breaking
and leaves the status unchanged. -/
theorem runLoop_inert (env : Env) (cfg : Config) (sd : SensitiveData)
    (ctl : ControllerM) (h : ∀ k, inertReply ctl (env.llmReply k)) :
    ∀ fuel n st, (runLoop env cfg sd ctl fuel n st).1 = n + fuel ∧
      (runLoop env cfg sd ctl fuel n st).2.res.status = st.res.status := by
  intro fuel
  induction fuel with
  | zero => intro n st; exact ⟨rfl, rfl⟩
  | succ f ihf =>
      intro n st
      unfold runLoop
      obtain ⟨hb, hs⟩ := runStep_inert env cfg sd ctl (n+1) st (h (n+1))
      simp only [hb, Bool.false_eq_true, if_false]
      obtain ⟨hc, hs2⟩ := ihf (n+1) (runStep env cfg sd ctl (n+1) st).1
      exact ⟨by omega, hs2.trans hs⟩

/-- The step counter never exceeds its starting value plus the fuel. -/
theorem runLoop_count_le (env : Env) (cfg : Config) (sd : SensitiveData)
    (ctl : ControllerM) :
    ∀ fuel n st, (runLoop env cfg sd ctl fuel n st).1 ≤ n + fuel := by
  intro fuel
  induction fuel with
  | zero => intro n st; exact Nat.le_refl n
  | succ f ihf =>
      intro n st
      unfold runLoop
      dsimp only
      split
      · omega
      · have := ihf (n+1) (runStep env cfg sd ctl (n+1) st).1
        omega

/-! ## Claim C4 -/

/-- C4: with an LLM that never produces a recognized action nor a
completion indicator, the loop runs for exactly `max_steps` steps, the
step counter never exceeds it, and the run ends with status `finished`
(never `failed`) and the step-ceiling output text. -/
theorem C4_step_ceiling_finishes (env : Env) (cfg : Config)
    (sd : SensitiveData) (ctl : ControllerM) (instr : Str)
    (h : ∀ k, inertReply ctl (env.llmReply k)) :
    (run_agent_task env cfg sd ctl instr).status = ("finished").data ∧
    (run_agent_task env cfg sd ctl instr).output = stepLimitMessage ∧
    (∀ st0 : AgentState,
      (runLoop env cfg sd ctl cfg.max_steps 0 st0).1 = cfg.max_steps) ∧
    (∀ fuel n st0, (runLoop env cfg sd ctl fuel n st0).1 ≤ n + fuel) := by
  have hfin : ∀ out : Nat × AgentState, cfg.max_steps ≤ out.1 →
      out.2.res.status = ("running").data →
      (finalizeResult cfg.max_steps out).status = ("finished").data ∧
      (finalizeResult cfg.max_steps out).output = stepLimitMessage := by
    intro out h1 h2
    unfold finalizeResult
    rw [if_pos ⟨h1, h2⟩]
    exact ⟨rfl, rfl⟩
  refine ⟨?_, ?_, ?_, runLoop_count_le env cfg sd ctl⟩
  · unfold run_agent_task
    dsimp only
    refine (hfin _ ?_ ?_).1
    · rw [(runLoop_inert env cfg sd ctl h cfg.max_steps 0 _).1]; omega
    · exact (runLoop_inert env cfg sd ctl h cfg.max_steps 0 _).2
  · unfold run_agent_task
    dsimp only
    refine (hfin _ ?_ ?_).2
    · rw [(runLoop_inert env cfg sd ctl h cfg.max_steps 0 _).1]; omega
    · exact (runLoop_inert env cfg sd ctl h cfg.max_steps 0 _).2
  · intro st0
    rw [(runLoop_inert env cfg sd ctl h cfg.max_steps 0 st0).1]
    omega

/-- Witness for C4 at a silent LLM, the default configuration, and an
empty task. -/
theorem C4_step_ceiling_finishes_witness :
    (∀ k, inertReply [] (dummyEnv.llmReply k)) ∧
    (run_agent_task dummyEnv cfgW [] [] []).status = ("finished").data ∧
    (run_agent_task dummyEnv cfgW [] [] []).output = stepLimitMessage := by
  have hin : ∀ k, inertReply [] (dummyEnv.llmReply k) := by
    intro k
    show inertReply [] []
    exact ⟨fun m hm => absurd hm (List.not_mem_nil m), by decide⟩
  have h := C4_step_ceiling_finishes dummyEnv cfgW [] [] [] hin
  exact ⟨hin, h.1, h.2.1⟩

/-! ## Claim C6 -/

/-- The scan leaves `next_goal` unset exactly when it was unset before
and no examined match carries a recognized name. -/
theorem processMatches_next_goal (env : Env) (cfg : Config)
    (sd : SensitiveData) (ctl : ControllerM) :
    ∀ ms st sr i,
      ((processMatches env cfg sd ctl st sr i ms).2.1.next_goal = none ↔
        (sr.next_goal = none ∧
          ∀ m ∈ ms, recognizedName ctl m.1 = false)) := by
  intro ms
  induction ms with
  | nil =>
      intro st sr i
      simp [processMatches]
  | cons m rest ih =>
      intro st sr i
      obtain ⟨nm, ps⟩ := m
      cases hlb : List.lookup nm action_map with
      | some b =>
          have hrecog : recognizedName ctl nm = true := by
            unfold recognizedName
            rw [hlb]
            rfl
          cases hrb : runBuiltin env cfg sd b (parseParams ps) st with
          | some out =>
              simp only [processMatches, hlb, hrb]
              simp only [List.mem_cons]
              constructor
              · intro hx; cases hx
              · rintro ⟨-, hall⟩
                have := hall (nm, ps) (Or.inl rfl)
                rw [hrecog] at this
                cases this
          | none =>
              simp only [processMatches, hlb, hrb, ih]
              simp only [List.mem_cons]
              constructor
              · rintro ⟨hx, -⟩; cases hx
              · rintro ⟨-, hall⟩
                have := hall (nm, ps) (Or.inl rfl)
                rw [hrecog] at this
                cases this
      | none =>
          cases hc : (List.lookup nm ctl).isSome with
          | true =>
              have hrecog : recognizedName ctl nm = true := by
                unfold recognizedName
                rw [hlb, hc]
                rfl
              simp only [processMatches, hlb, hc, if_true]
              simp only [List.mem_cons]
              constructor
              · intro hx; cases hx
              · rintro ⟨-, hall⟩
                have := hall (nm, ps) (Or.inl rfl)
                rw [hrecog] at this
                cases this
          | false =>
              have hrecog : recognizedName ctl nm = false := by
                unfold recognizedName
                rw [hlb, hc]
                rfl
              simp only [processMatches, hlb, hc, Bool.false_eq_true, if_false, ih]
              simp only [List.mem_cons]
              constructor
              · rintro ⟨h1, h2⟩
                exact ⟨h1, fun m hm => hm.elim (fun he => he ▸ hrecog) (h2 m)⟩
              · rintro ⟨h1, h2⟩
                exact ⟨h1, fun m hm => h2 m (Or.inr hm)⟩

/-- One step appends at most one step record, and that record carries
`next_goal` exactly unless its reply's matches were all unrecognized. -/
theorem runStep_steps_shape (env : Env) (cfg : Config) (sd : SensitiveData)
    (ctl : ControllerM) (n : Nat) (st : AgentState) :
    (runStep env cfg sd ctl n st).1.res.steps = st.res.steps ∨
    ∃ r, (runStep env cfg sd ctl n st).1.res.steps = st.res.steps ++ [r] ∧
      (r.next_goal = none ↔
        (findMatches (env.llmReply n) ≠ [] ∧
         ∀ m ∈ findMatches (env.llmReply n), recognizedName ctl m.1 = false)) := by
  unfold runStep
  cases hv : (if cfg.use_vision then env.visionShotExn n else none) with
  | some e => exact Or.inl rfl
  | none =>
      dsimp only
      split
      · rename (findMatches (env.llmReply n) ≠ []) => hms
        refine Or.inr ⟨(processMatches env cfg sd ctl st
          { step := n, evaluation_previous_goal := env.llmReply n } 0
          (findMatches (env.llmReply n))).2.1, ?_, ?_⟩
        · obtain ⟨-, hsteps1, -, -, -⟩ := processMatches_scan env cfg sd ctl
            (findMatches (env.llmReply n)) st
            { step := n, evaluation_previous_goal := env.llmReply n } 0
          split
          · obtain ⟨-, hsteps2, -, -, -⟩ := take_screenshot_frame env
              (processMatches env cfg sd ctl st
                { step := n, evaluation_previous_goal := env.llmReply n } 0
                (findMatches (env.llmReply n))).1
            rw [hsteps2, hsteps1]
          · rw [hsteps1]
        · rw [processMatches_next_goal]
          simp only [true_and]
          exact ⟨fun hall => ⟨hms, hall⟩, fun hall => hall.2⟩
      · split
        · refine Or.inr ⟨_, rfl, ?_⟩
          simp only []
          constructor
          · intro hx; cases hx
          · rintro ⟨hne, -⟩
            rename (¬ findMatches (env.llmReply n) ≠ []) => hms
            exact absurd hne hms
        · exact Or.inl rfl

/-- C6 (counterexample): the result of a run carries the key
`sensitive_data` in addition to the six claimed fields, and a recorded
step carries the keys `step` and `evaluation_previous_goal`, not
`reasoning` and `chosen_action_text`. -/
theorem C6_counterexample_extra_and_renamed_fields :
    (("sensitive_data").data) ∈ (run_agent_task dummyEnv cfgW [] [] []).fields ∧
    (run_agent_task dummyEnv cfgW [] [] []).fields ≠
      [("status").data, ("steps").data, ("urls").data, ("screenshots").data,
       ("errors").data, ("output").data] ∧
    ((run_agent_task envC6 cfg1 [] [] []).steps.map StepRec.fields =
      [[("step").data, ("evaluation_previous_goal").data]]) ∧
    ∀ r ∈ (run_agent_task envC6 cfg1 [] [] []).steps,
      r.fields ≠ [("step").data, ("reasoning").data, ("chosen_action_text").data] := by
  refine ⟨by decide, by decide, by decide, by decide⟩

/-- C6 (amended): the returned result has exactly the seven fields
`status, steps, urls, screenshots, errors, output, sensitive_data`; each
step record has exactly the fields `step` and `evaluation_previous_goal`
plus `next_goal`, and `next_goal` is present in an appended record
exactly unless every parsed match of that step's reply was an
unrecognized name. -/
theorem C6_result_field_shape (env : Env) (cfg : Config) (sd : SensitiveData)
    (ctl : ControllerM) (instr : Str) :
    (run_agent_task env cfg sd ctl instr).fields =
      [("status").data, ("steps").data, ("urls").data, ("screenshots").data,
       ("errors").data, ("output").data, ("sensitive_data").data] ∧
    (∀ r ∈ (run_agent_task env cfg sd ctl instr).steps,
      r.fields = [("step").data, ("evaluation_previous_goal").data] ∨
      r.fields = [("step").data, ("evaluation_previous_goal").data,
        ("next_goal").data]) ∧
    (∀ n st, (runStep env cfg sd ctl n st).1.res.steps = st.res.steps ∨
      ∃ r, (runStep env cfg sd ctl n st).1.res.steps = st.res.steps ++ [r] ∧
        (r.next_goal = none ↔
          (findMatches (env.llmReply n) ≠ [] ∧
           ∀ m ∈ findMatches (env.llmReply n), recognizedName ctl m.1 = false))) := by
  refine ⟨rfl, ?_, fun n st => runStep_steps_shape env cfg sd ctl n st⟩
  intro r _
  cases h : r.next_goal with
  | none => left; simp [StepRec.fields, h]
  | some g => right; simp [StepRec.fields, h]

/-- Witness for the amended C6 on a one-step run with an unrecognized
invocation. -/
theorem C6_result_field_shape_witness :
    (run_agent_task envC6 cfg1 [] [] []).fields =
      [("status").data, ("steps").data, ("urls").data, ("screenshots").data,
       ("errors").data, ("output").data, ("sensitive_data").data] ∧
    ({ step := 1, evaluation_previous_goal := ("foo(1)").data : StepRec}.fields =
        [("step").data, ("evaluation_previous_goal").data] ∨
      { step := 1, evaluation_previous_goal := ("foo(1)").data : StepRec}.fields =
        [("step").data, ("evaluation_previous_goal").data, ("next_goal").data]) := by
  have h := C6_result_field_shape envC6 cfg1 [] [] []
  refine ⟨h.1, ?_⟩
  exact h.2.1 { step := 1, evaluation_previous_goal := ("foo(1)").data } (by decide)

/-! ## The masking round trip (claim C3) -/

/-! ## Equations of `replaceAll` -/

/-- Bridging the boolean prefix test to the prefix order. -/
theorem isPrefixOf_eq_true_iff {l1 l2 : Str} : l1.isPrefixOf l2 = true ↔ l1 <+: l2 :=
  List.isPrefixOf_iff_prefix

theorem replaceAllF_fuel (pat repl : Str) :
    ∀ f1 f2 s, s.length ≤ f1 → s.length ≤ f2 →
      replaceAllF pat repl f1 s = replaceAllF pat repl f2 s := by
  intro f1
  induction f1 with
  | zero =>
    intro f2 s h1 _
    have hs : s = [] := List.eq_nil_of_length_eq_zero (Nat.le_zero.mp h1)
    subst hs
    cases f2 <;> simp [replaceAllF]
  | succ g ih =>
    intro f2 s h1 h2
    cases s with
    | nil => cases f2 <;> simp [replaceAllF]
    | cons c cs =>
      simp only [List.length_cons] at h1 h2
      cases f2 with
      | zero => omega
      | succ g2 =>
        simp only [replaceAllF]
        split_ifs with hp hpre
        · rw [ih g2 cs (by omega) (by omega)]
        · rw [ih g2 ((c :: cs).drop pat.length)
            (by
              simp only [List.length_drop, List.length_cons]
              have : 0 < pat.length := List.length_pos.mpr hp
              omega)
            (by
              simp only [List.length_drop, List.length_cons]
              have : 0 < pat.length := List.length_pos.mpr hp
              omega)]
        · rw [ih g2 cs (by omega) (by omega)]

theorem replaceAll_nil (pat repl : Str) :
    replaceAll pat repl [] = if pat = [] then repl else [] := rfl

theorem replaceAll_pos (pat repl : Str) (c : Char) (cs : Str)
    (hp : pat ≠ []) (hpre : pat <+: (c :: cs)) :
    replaceAll pat repl (c :: cs)
      = repl ++ replaceAll pat repl ((c :: cs).drop pat.length) := by
  have hpl : 0 < pat.length := List.length_pos.mpr hp
  show replaceAllF pat repl (c :: cs).length (c :: cs) = _
  simp only [List.length_cons, replaceAllF, if_neg hp,
    if_pos (isPrefixOf_eq_true_iff.mpr hpre)]
  rw [replaceAllF_fuel pat repl cs.length ((c :: cs).drop pat.length).length
    ((c :: cs).drop pat.length)
    (by simp only [List.length_drop, List.length_cons]; omega)
    (le_refl _)]
  rfl

theorem replaceAll_neg (pat repl : Str) (c : Char) (cs : Str)
    (hp : pat ≠ []) (hpre : ¬ pat <+: (c :: cs)) :
    replaceAll pat repl (c :: cs) = c :: replaceAll pat repl cs := by
  show replaceAllF pat repl (c :: cs).length (c :: cs) = _
  simp only [List.length_cons, replaceAllF, if_neg hp,
    if_neg (fun h => hpre (isPrefixOf_eq_true_iff.mp h))]
  rfl

/-- A pattern that does not occur is not replaced. -/
theorem replaceAll_no_occurrence (pat repl : Str) (hp : pat ≠ []) :
    ∀ s, ¬ pat <:+: s → replaceAll pat repl s = s := by
  intro s
  induction s with
  | nil => intro _; rw [replaceAll_nil, if_neg hp]
  | cons c cs ih =>
    intro hocc
    rw [replaceAll_neg pat repl c cs hp
      (fun h => hocc h.isInfix)]
    rw [ih (fun h => hocc (List.infix_cons h))]

/-- A match at the head is replaced and the scan resumes after it. -/
theorem replaceAll_head (pat repl rest : Str) (hp : pat ≠ []) :
    replaceAll pat repl (pat ++ rest) = repl ++ replaceAll pat repl rest := by
  obtain ⟨p0, pt, hpat⟩ := List.exists_cons_of_ne_nil hp
  subst hpat
  rw [List.cons_append, replaceAll_pos _ repl p0 (pt ++ rest) hp
    (by rw [← List.cons_append]; exact List.prefix_append _ _)]
  rw [← List.cons_append, List.drop_left]

/-- Splitting a prefix of an appended list. -/
theorem prefix_split {z c y : Str} (h : z <+: c ++ y) :
    z <+: c ∨ ∃ z2, z = c ++ z2 ∧ z2 <+: y := by
  by_cases hl : z.length ≤ c.length
  · exact Or.inl (List.prefix_of_prefix_length_le h (List.prefix_append c y) hl)
  · have hc : c <+: z :=
      List.prefix_of_prefix_length_le (List.prefix_append c y) h (by omega)
    obtain ⟨z2, hz2⟩ := hc
    refine Or.inr ⟨z2, hz2.symm, ?_⟩
    rw [← hz2] at h
    exact (List.prefix_append_right_inj c).mp h

/-- A replacement distributes over an append when no occurrence of the
pattern spans the boundary. -/
theorem replaceAll_append (pat repl : Str) (hp : pat ≠ []) :
    ∀ n c y, c.length ≤ n →
      (∀ x, x <:+ c → x ≠ [] → x.length < pat.length → ¬ pat <+: (x ++ y)) →
      replaceAll pat repl (c ++ y)
        = replaceAll pat repl c ++ replaceAll pat repl y := by
  intro n
  induction n with
  | zero =>
    intro c y hc _
    have : c = [] := List.eq_nil_of_length_eq_zero (Nat.le_zero.mp hc)
    subst this
    simp [replaceAll_nil, if_neg hp]
  | succ m ih =>
    intro c y hc hspan
    cases c with
    | nil => simp [replaceAll_nil, if_neg hp]
    | cons d c2 =>
      by_cases hmatch : pat <+: ((d :: c2) ++ y)
      · have hlen : pat.length ≤ (d :: c2).length := by
          by_contra hgt
          exact hspan (d :: c2) (List.suffix_refl _) (List.cons_ne_nil d c2)
            (by omega) hmatch
        have hpc : pat <+: d :: c2 :=
          List.prefix_of_prefix_length_le hmatch (List.prefix_append _ _) hlen
        rw [List.cons_append] at hmatch ⊢
        rw [replaceAll_pos pat repl d (c2 ++ y) hp hmatch]
        rw [replaceAll_pos pat repl d c2 hp hpc]
        rw [← List.cons_append, List.drop_append_eq_append_drop,
          Nat.sub_eq_zero_of_le hlen, List.drop_zero]
        rw [ih ((d :: c2).drop pat.length) y
          (by
            simp only [List.length_drop, List.length_cons] at *
            have : 0 < pat.length := List.length_pos.mpr hp
            omega)
          (fun x hx hxne hxl =>
            hspan x (hx.trans (List.drop_suffix _ _)) hxne hxl)]
        rw [List.append_assoc]
      · have hpc : ¬ pat <+: d :: c2 := by
          intro h
          exact hmatch (h.trans (List.prefix_append _ _))
        rw [List.cons_append, replaceAll_neg pat repl d (c2 ++ y) hp
          (by rw [← List.cons_append]; exact hmatch)]
        rw [replaceAll_neg pat repl d c2 hp hpc]
        rw [ih c2 y (by simp only [List.length_cons] at hc; omega)
          (fun x hx hxne hxl =>
            hspan x (hx.trans (List.suffix_cons d c2)) hxne hxl)]
        rw [List.cons_append]

/-- A chunk free of occurrences, and across whose right boundary no
occurrence spans, passes through a replacement unchanged. -/
theorem replaceAll_skip (pat repl : Str) (hp : pat ≠ []) (c y : Str)
    (hsp : ∀ x, x <:+ c → x ≠ [] → ¬ pat <+: (x ++ y)) :
    replaceAll pat repl (c ++ y) = c ++ replaceAll pat repl y := by
  have hocc : ¬ pat <:+: c := by
    intro h
    obtain ⟨x, hx1, hx2⟩ := List.infix_iff_prefix_suffix.mp h
    have hxne : x ≠ [] := by
      intro hxe
      subst hxe
      exact hp (List.prefix_nil.mp hx1)
    exact hsp x hx2 hxne (hx1.trans (List.prefix_append x y))
  rw [replaceAll_append pat repl hp c.length c y (le_refl _)
    (fun x hx hxne _ => hsp x hx hxne)]
  rw [replaceAll_no_occurrence pat repl hp c hocc]

/-! ## Bracket bookkeeping around markers -/

/-- A nonempty suffix of `y ++ [q]` contains `q`. -/
theorem mem_of_suffix_concat {q : Char} :
    ∀ {y x : Str}, x <:+ y ++ [q] → x ≠ [] → q ∈ x := by
  intro y
  induction y with
  | nil =>
    intro x h hne
    obtain ⟨l, hl⟩ := h
    cases l with
    | nil =>
      simp only [List.nil_append] at hl
      rw [hl]
      exact List.mem_singleton.mpr rfl
    | cons d l' =>
      simp only [List.nil_append, List.cons_append] at hl
      obtain ⟨_, htl⟩ := (List.cons.injEq _ _ _ _).mp hl
      have : x = [] := by
        have := congrArg List.length htl
        simp only [List.length_append, List.length_nil] at this
        exact List.eq_nil_of_length_eq_zero (by omega)
      exact absurd this hne
  | cons c y' ih =>
    intro x h hne
    obtain ⟨l, hl⟩ := h
    cases l with
    | nil =>
      simp only [List.nil_append] at hl
      rw [hl, List.cons_append]
      exact List.mem_cons_of_mem c (List.mem_append_right y' (List.mem_singleton.mpr rfl))
    | cons d l' =>
      rw [List.cons_append, List.cons_append] at hl
      obtain ⟨_, htl⟩ := (List.cons.injEq _ _ _ _).mp hl
      exact ih ⟨l', htl⟩ hne

/-- A nonempty suffix of a marker contains the closing bracket. -/
theorem suffix_marker_mem {x p : Str} (h : x <:+ marker p) (hne : x ≠ []) :
    ']' ∈ x := by
  have : marker p = ('[' :: p) ++ [']'] := by simp [marker]
  rw [this] at h
  exact mem_of_suffix_concat h hne

/-- A proper prefix of a marker is a prefix of the marker without its
closing bracket. -/
theorem proper_prefix_marker {x p : Str} (h : x <+: marker p)
    (hl : x.length < (marker p).length) : x <+: '[' :: p := by
  refine List.prefix_of_prefix_length_le h ?_ ?_
  · show '[' :: p <+: marker p
    have : marker p = ('[' :: p) ++ [']'] := by simp [marker]
    rw [this]
    exact List.prefix_append _ _
  · have h2 : (marker p).length = p.length + 2 := by simp [marker]
    simp only [List.length_cons]
    omega

/-- An infix of an appended list lies in the left part, in the right
part, or spans the boundary with a nonempty piece on each side. -/
theorem infix_split {pat a b : Str} (h : pat <:+: a ++ b) :
    pat <:+: a ∨ pat <:+: b ∨
      ∃ x z, pat = x ++ z ∧ x ≠ [] ∧ z ≠ [] ∧ x <:+ a ∧ z <+: b := by
  induction a with
  | nil => exact Or.inr (Or.inl (by simpa using h))
  | cons d a2 ih =>
    rw [List.cons_append] at h
    rcases List.infix_cons_iff.mp h with hpre | hinf
    · rw [← List.cons_append] at hpre
      by_cases hl : pat.length ≤ (d :: a2).length
      · exact Or.inl
          ((List.prefix_of_prefix_length_le hpre
            (List.prefix_append _ _) hl).isInfix)
      · have ha : (d :: a2) <+: pat :=
          List.prefix_of_prefix_length_le (List.prefix_append _ _) hpre
            (by omega)
        obtain ⟨z, hz⟩ := ha
        refine Or.inr (Or.inr ⟨d :: a2, z, hz.symm, List.cons_ne_nil d a2, ?_,
          List.suffix_refl _, ?_⟩)
        · intro hze
          rw [hze, List.append_nil] at hz
          rw [← hz] at hl
          exact hl (le_refl _)
        · rw [← hz] at hpre
          exact (List.prefix_append_right_inj (d :: a2)).mp hpre
    · rcases ih hinf with h2 | h2 | ⟨x, z, hxz, hxne, hzne, hxs, hzp⟩
      · exact Or.inl (List.infix_cons h2)
      · exact Or.inr (Or.inl h2)
      · exact Or.inr (Or.inr ⟨x, z, hxz, hxne, hzne,
          hxs.trans (List.suffix_cons d a2), hzp⟩)

/-- A nonempty bracket-free string inside a marker sits inside the
placeholder name. -/
theorem infix_marker_of_bracket_free {s p : Str} (hne : s ≠ [])
    (hlb : '[' ∉ s) (hrb : ']' ∉ s) (h : s <:+: marker p) : s <:+: p := by
  have hm : marker p = '[' :: (p ++ [']']) := by simp [marker]
  rw [hm] at h
  rcases List.infix_cons_iff.mp h with hpre | hinf
  · obtain ⟨c, s', rfl⟩ := List.exists_cons_of_ne_nil hne
    have := (List.cons_prefix_cons.mp hpre).1
    exact absurd (this ▸ List.mem_cons_self c s') hlb
  · rcases infix_split hinf with h2 | h2 | ⟨x, z, hxz, _, hzne, _, hzp⟩
    · exact h2
    · obtain ⟨c, hc⟩ := List.exists_mem_of_ne_nil s hne
      have : c ∈ [']'] := List.IsInfix.mem hc h2
      simp only [List.mem_singleton] at this
      exact absurd (this ▸ hc) hrb
    · obtain ⟨zc, z', rfl⟩ := List.exists_cons_of_ne_nil hzne
      have hzc := (List.cons_prefix_cons.mp hzp).1
      have : ']' ∈ s := by
        rw [hxz, hzc]
        exact List.mem_append_right x (List.mem_cons_self _ _)
      exact absurd this hrb

/-- Two delimiter-free strings closed by the delimiter agree when one
closed form extends the other. -/
theorem eq_of_concat_eq_concat_append {q : Char} :
    ∀ (p p' r : Str), (p ++ [q]) ++ r = p' ++ [q] →
      q ∉ p → q ∉ p' → p = p' := by
  intro p
  induction p with
  | nil =>
    intro p' r hco _ hp'
    cases p' with
    | nil => rfl
    | cons c' pt' =>
      simp only [List.nil_append, List.cons_append] at hco
      have : q = c' := (List.cons.injEq _ _ _ _).mp hco |>.1
      exact absurd (this ▸ List.mem_cons_self c' pt') hp'
  | cons c pt ihp =>
    intro p' r hco hp hp'
    cases p' with
    | nil =>
      simp only [List.cons_append, List.nil_append] at hco
      have : c = q := (List.cons.injEq _ _ _ _).mp hco |>.1
      exact absurd (this ▸ List.mem_cons_self c pt) hp
    | cons c' pt' =>
      simp only [List.cons_append] at hco
      obtain ⟨hcc, htl⟩ := (List.cons.injEq _ _ _ _).mp hco
      rw [hcc, ihp pt' r htl (fun hm => hp (List.mem_cons_of_mem c hm))
        (fun hm => hp' (List.mem_cons_of_mem c' hm))]

/-- Distinct bracket-free placeholders have non-nested markers. -/
theorem marker_infix_marker {p p' : Str} (hp : ']' ∉ p) (hp' : ']' ∉ p')
    (hlp' : '[' ∉ p') (h : marker p <:+: marker p') : p = p' := by
  obtain ⟨l, r, heq⟩ := h
  cases l with
  | nil =>
    simp only [List.nil_append] at heq
    have hco : (p ++ [']']) ++ r = p' ++ [']'] := by
      have : ('[' :: (p ++ [']'])) ++ r = '[' :: (p' ++ [']']) := by
        simpa [marker] using heq
      simpa using this
    exact eq_of_concat_eq_concat_append p p' r hco hp hp'
  | cons c l' =>
    have heq2 : '[' :: (p' ++ [']'])
        = c :: (l' ++ (marker p ++ r)) := by
      simpa [marker, List.cons_append, List.append_assoc] using heq.symm
    obtain ⟨_, htl⟩ := (List.cons.injEq _ _ _ _).mp heq2
    have : '[' ∈ l' ++ (marker p ++ r) := by
      refine List.mem_append_right l' (List.mem_append_left r ?_)
      simp [marker]
    rw [← htl] at this
    rcases List.mem_append.mp this with hm | hm
    · exact absurd hm hlp'
    · simp only [List.mem_singleton] at hm
      exact absurd hm (by decide)

/-- A vault with pairwise-distinct placeholder names determines entries
by their name. -/
theorem eq_of_key_eq {M : SensitiveData} (hk : (M.map Prod.fst).Nodup)
    {e e' : Str × Str} (he : e ∈ M) (he' : e' ∈ M) (h : e.1 = e'.1) :
    e = e' :=
  List.inj_on_of_nodup_map hk he he' h

/-! ## Rendering lemmas -/

theorem renderA_congr {f g : Str × Str → Str} :
    ∀ {A : List Atom}, (∀ e, Atom.occ e ∈ A → f e = g e) →
      renderA f A = renderA g A := by
  intro A
  induction A with
  | nil => intro _; rfl
  | cons a A' ih =>
    intro h
    cases a with
    | lit c =>
      simp only [renderA]
      rw [ih (fun e he => h e (List.mem_cons_of_mem _ he))]
    | occ e =>
      simp only [renderA]
      rw [h e (List.mem_cons_self _ _),
        ih (fun e2 he => h e2 (List.mem_cons_of_mem _ he))]

theorem renderA_append (f : Str × Str → Str) :
    ∀ A B, renderA f (A ++ B) = renderA f A ++ renderA f B := by
  intro A B
  induction A with
  | nil => rfl
  | cons a A' ih =>
    cases a with
    | lit c =>
      show c ++ renderA f (A' ++ B) = (c ++ renderA f A') ++ renderA f B
      rw [ih, List.append_assoc]
    | occ e =>
      show f e ++ renderA f (A' ++ B) = (f e ++ renderA f A') ++ renderA f B
      rw [ih, List.append_assoc]

/-- A tracked occurrence appears in the rendering. -/
theorem infix_render_of_occ_mem {f : Str × Str → Str} {e : Str × Str} :
    ∀ {A : List Atom}, Atom.occ e ∈ A → f e <:+: renderA f A := by
  intro A
  induction A with
  | nil => intro h; exact absurd h (List.not_mem_nil _)
  | cons a A' ih =>
    intro h
    rcases List.mem_cons.mp h with heq | hmem
    · rw [← heq]
      simp only [renderA]
      exact (List.prefix_append _ _).isInfix
    · have htail := ih hmem
      cases a <;>
        exact htail.trans (List.suffix_append _ _).isInfix

/-- A bracket-free prefix of a partially restored rendering is a prefix
of the fully restored rendering. -/
theorem prefix_orig_of_prefix_render {done : Str × Str → Bool} :
    ∀ (A : List Atom) (z : Str),
      (∀ e, Atom.occ e ∈ A → '[' ∉ e.2) → z ≠ [] → '[' ∉ z →
      z <+: renderSt done A → z <+: renderO A := by
  intro A
  induction A with
  | nil =>
    intro z _ hzne _ hz
    simp only [renderSt, renderA] at hz
    exact absurd (List.prefix_nil.mp hz) hzne
  | cons a A' ih =>
    intro z hbf hzne hzlb hz
    cases a with
    | lit c =>
      simp only [renderSt, renderA] at hz
      simp only [renderO, renderA]
      rcases prefix_split hz with h | ⟨z2, rfl, hz2⟩
      · exact h.trans (List.prefix_append _ _)
      · cases z2 with
        | nil => simpa using List.prefix_append c (renderA (fun e => e.2) A')
        | cons zc z' =>
          have hz2' := ih (zc :: z')
            (fun e he => hbf e (List.mem_cons_of_mem _ he))
            (List.cons_ne_nil _ _)
            (fun hm => hzlb (List.mem_append_right c hm)) hz2
          exact (List.prefix_append_right_inj c).mpr hz2'
    | occ e =>
      have hle : '[' ∉ e.2 := hbf e (List.mem_cons_self _ _)
      simp only [renderSt, renderA] at hz
      simp only [renderO, renderA]
      cases hdone : done e with
      | true =>
        rw [hdone, if_pos rfl] at hz
        rcases prefix_split hz with h | ⟨z2, rfl, hz2⟩
        · exact h.trans (List.prefix_append _ _)
        · cases z2 with
          | nil => simpa using List.prefix_append e.2 (renderA (fun e => e.2) A')
          | cons zc z' =>
            have hz2' := ih (zc :: z')
              (fun e2 he => hbf e2 (List.mem_cons_of_mem _ he))
              (List.cons_ne_nil _ _)
              (fun hm => hzlb (List.mem_append_right e.2 hm)) hz2
            exact (List.prefix_append_right_inj e.2).mpr hz2'
      | false =>
        rw [hdone, if_neg Bool.false_ne_true] at hz
        obtain ⟨zc, z', rfl⟩ := List.exists_cons_of_ne_nil hzne
        have : marker e.1 = '[' :: (e.1 ++ [']']) := by simp [marker]
        rw [this, List.cons_append] at hz
        have := (List.cons_prefix_cons.mp hz).1
        exact absurd (this ▸ List.mem_cons_self zc z') hzlb

/-- A marker split across a literal boundary witnesses the marker inside
the restored rendering. -/
theorem marker_span_into_render {e0 : Str × Str} {done : Str × Str → Bool}
    {A' : List Atom} {c x z : Str}
    (hph : '[' ∉ e0.1)
    (hbf : ∀ e, Atom.occ e ∈ A' → '[' ∉ e.2)
    (hx : x <:+ c) (hxne : x ≠ [])
    (hz : z <+: renderSt done A')
    (hsplit : marker e0.1 = x ++ z) :
    marker e0.1 <:+: c ++ renderO A' := by
  by_cases hze : z = []
  · subst hze
    rw [List.append_nil] at hsplit
    rw [hsplit]
    exact (hx.isInfix).trans (List.prefix_append c _).isInfix
  · have hzlb : '[' ∉ z := by
      intro hm
      obtain ⟨xc, x', rfl⟩ := List.exists_cons_of_ne_nil hxne
      have : marker e0.1 = '[' :: (e0.1 ++ [']']) := by simp [marker]
      rw [this, List.cons_append] at hsplit
      obtain ⟨_, htl⟩ := (List.cons.injEq _ _ _ _).mp hsplit
      have : '[' ∈ e0.1 ++ [']'] := by
        rw [htl]; exact List.mem_append_right x' hm
      rcases List.mem_append.mp this with h | h
      · exact hph h
      · simp only [List.mem_singleton] at h
        exact absurd h (by decide)
    have hzo : z <+: renderO A' :=
      prefix_orig_of_prefix_render A' z hbf hze hzlb hz
    obtain ⟨l, hl⟩ := hx
    obtain ⟨r, hr⟩ := hzo
    refine ⟨l, r, ?_⟩
    rw [← hl, ← hr, hsplit]
    simp [List.append_assoc]

/-! ## Lemmas about literal chunking -/

theorem renderA_consLit (f : Str × Str → Str) (c : Char) :
    ∀ X, renderA f (consLit c X) = c :: renderA f X := by
  intro X
  cases X with
  | nil => simp [consLit, renderA]
  | cons a rest =>
    cases a with
    | lit d => simp [consLit, renderA]
    | occ e => simp [consLit, renderA]

theorem mem_occ_consLit {e2 : Str × Str} {c : Char} :
    ∀ {X}, Atom.occ e2 ∈ consLit c X → Atom.occ e2 ∈ X := by
  intro X h
  cases X with
  | nil => simp [consLit] at h
  | cons a rest =>
    cases a with
    | lit d =>
      simp only [consLit, List.mem_cons] at h ⊢
      rcases h with h | h
      · exact absurd h (by simp)
      · exact Or.inr h
    | occ e3 =>
      simp only [consLit, List.mem_cons] at h ⊢
      rcases h with h | h
      · exact absurd h (by simp)
      · exact h

theorem altOK_consLit (c : Char) :
    ∀ {X}, AltOK X → AltOK (consLit c X) := by
  intro X h
  cases X with
  | nil => exact ⟨trivial, trivial⟩
  | cons a rest =>
    cases a with
    | lit d => exact h
    | occ e => exact ⟨trivial, h⟩

theorem altOK_append :
    ∀ {X Y}, AltOK X → AltOK Y → headNotLit Y → AltOK (X ++ Y) := by
  intro X
  induction X with
  | nil => intro Y _ hY _; exact hY
  | cons a X' ih =>
    intro Y hX hY hYh
    cases a with
    | lit c =>
      obtain ⟨hnl, hX'⟩ := hX
      refine ⟨?_, ih hX' hY hYh⟩
      cases X' with
      | nil => exact hYh
      | cons b X'' =>
        cases b with
        | lit d => exact absurd hnl (by simp [headNotLit])
        | occ e => trivial
    | occ e => exact ih hX hY hYh

/-- Chunking renders to the masked replacement of the chunk. -/
theorem renderM_chunkAtoms (e : Str × Str) (hne : e.2 ≠ []) :
    ∀ fuel c, renderM (chunkAtoms e fuel c) = replaceAllF e.2 (marker e.1) fuel c := by
  intro fuel
  induction fuel with
  | zero =>
    intro c
    cases c with
    | nil => simp [chunkAtoms, replaceAllF, renderM, renderA, if_neg hne]
    | cons c0 cs => simp [chunkAtoms, replaceAllF, renderM, renderA]
  | succ m ih =>
    intro c
    cases c with
    | nil => simp [chunkAtoms, replaceAllF, renderM, renderA, if_neg hne]
    | cons c0 cs =>
      simp only [chunkAtoms, replaceAllF, if_neg hne]
      by_cases hpre : e.2.isPrefixOf (c0 :: cs)
      · rw [if_pos hpre, if_pos hpre]
        show renderM (Atom.occ e :: _) = _
        simp only [renderM, renderA]
        rw [show renderA (fun e => marker e.1) (chunkAtoms e m ((c0 :: cs).drop e.2.length)) = renderM (chunkAtoms e m ((c0 :: cs).drop e.2.length)) from rfl, ih]
      · rw [if_neg hpre, if_neg hpre]
        rw [show renderM (consLit c0 (chunkAtoms e m cs)) = renderA (fun e => marker e.1) (consLit c0 (chunkAtoms e m cs)) from rfl]
        rw [renderA_consLit]
        rw [show renderA (fun e => marker e.1) (chunkAtoms e m cs) = renderM (chunkAtoms e m cs) from rfl, ih]

/-- Chunking preserves the underlying text. -/
theorem renderO_chunkAtoms (e : Str × Str) :
    ∀ fuel c, renderO (chunkAtoms e fuel c) = c := by
  intro fuel
  induction fuel with
  | zero =>
    intro c
    cases c with
    | nil => simp [chunkAtoms, renderO, renderA]
    | cons c0 cs => simp [chunkAtoms, renderO, renderA]
  | succ m ih =>
    intro c
    cases c with
    | nil => simp [chunkAtoms, renderO, renderA]
    | cons c0 cs =>
      simp only [chunkAtoms]
      by_cases hpre : e.2.isPrefixOf (c0 :: cs)
      · rw [if_pos hpre]
        show e.2 ++ renderO (chunkAtoms e m ((c0 :: cs).drop e.2.length)) = c0 :: cs
        rw [ih]
        obtain ⟨t, ht⟩ := isPrefixOf_eq_true_iff.mp hpre
        rw [← ht, List.drop_left]
      · rw [if_neg hpre]
        rw [show renderO (consLit c0 (chunkAtoms e m cs)) = renderA (fun e => e.2) (consLit c0 (chunkAtoms e m cs)) from rfl]
        rw [renderA_consLit]
        rw [show renderA (fun e => e.2) (chunkAtoms e m cs) = renderO (chunkAtoms e m cs) from rfl, ih]

theorem mem_occ_chunkAtoms {e e2 : Str × Str} :
    ∀ {fuel c}, Atom.occ e2 ∈ chunkAtoms e fuel c → e2 = e := by
  intro fuel
  induction fuel with
  | zero =>
    intro c h
    cases c with
    | nil => simp [chunkAtoms] at h
    | cons c0 cs => simp [chunkAtoms] at h
  | succ m ih =>
    intro c h
    cases c with
    | nil => simp [chunkAtoms] at h
    | cons c0 cs =>
      simp only [chunkAtoms] at h
      by_cases hpre : e.2.isPrefixOf (c0 :: cs)
      · rw [if_pos hpre] at h
        rcases List.mem_cons.mp h with h | h
        · exact (Atom.occ.injEq _ _).mp h
        · exact ih h
      · rw [if_neg hpre] at h
        exact ih (mem_occ_consLit h)

theorem altOK_chunkAtoms (e : Str × Str) :
    ∀ fuel c, AltOK (chunkAtoms e fuel c) := by
  intro fuel
  induction fuel with
  | zero =>
    intro c
    cases c with
    | nil => trivial
    | cons c0 cs => exact ⟨trivial, trivial⟩
  | succ m ih =>
    intro c
    cases c with
    | nil => trivial
    | cons c0 cs =>
      simp only [chunkAtoms]
      by_cases hpre : e.2.isPrefixOf (c0 :: cs)
      · rw [if_pos hpre]
        exact ih _
      · rw [if_neg hpre]
        exact altOK_consLit c0 (ih cs)

theorem headNotLit_maskAtoms {e : Str × Str} :
    ∀ {A}, headNotLit A → headNotLit (maskAtoms e A) := by
  intro A h
  cases A with
  | nil => trivial
  | cons a rest =>
    cases a with
    | lit d => exact absurd h (by simp [headNotLit])
    | occ e2 => trivial

theorem renderM_append (X Y : List Atom) :
    renderM (X ++ Y) = renderM X ++ renderM Y := renderA_append _ X Y

theorem renderO_append (X Y : List Atom) :
    renderO (X ++ Y) = renderO X ++ renderO Y := renderA_append _ X Y

/-! ## One masking stage -/

/-- One `mask_prompt` replacement rewrites a masked decomposition into
the masked form of the decomposition with entry `e`'s occurrences
tracked, preserving the underlying text, the vault-membership of the
occurrences and the alternation shape. -/
theorem maskAtoms_render (M : SensitiveData) (hV : VaultOK M)
    (e : Str × Str) (he : e ∈ M) :
    ∀ A, occsIn A M → AltOK A →
      replaceAll e.2 (marker e.1) (renderM A) = renderM (maskAtoms e A)
      ∧ renderO (maskAtoms e A) = renderO A
      ∧ occsIn (maskAtoms e A) M
      ∧ AltOK (maskAtoms e A) := by
  have hsec := hV.sec_ne e he
  have hbf := hV.sec_bf e he
  intro A
  induction A with
  | nil =>
    intro _ _
    refine ⟨?_, rfl, fun e2 h => absurd h (List.not_mem_nil _), trivial⟩
    show replaceAll e.2 (marker e.1) [] = ([] : Str)
    rw [replaceAll_nil, if_neg hsec]
  | cons a A' ih =>
    intro hocc halt
    have hocc' : occsIn A' M := fun e2 h2 => hocc e2 (List.mem_cons_of_mem _ h2)
    cases a with
    | lit c =>
      have halt2 : headNotLit A' ∧ AltOK A' := halt
      obtain ⟨hnl, halt'⟩ := halt2
      obtain ⟨ihR, ihO, ihI, ihA⟩ := ih hocc' halt'
      have hspan : ∀ x, x <:+ c → x ≠ [] → x.length < e.2.length →
          ¬ e.2 <+: (x ++ renderM A') := by
        intro x _ _ hxl hpre
        rcases prefix_split hpre with h | ⟨z, hz, hzp⟩
        · exact absurd h.length_le (by omega)
        · have hzne : z ≠ [] := by
            intro hze
            rw [hze, List.append_nil] at hz
            rw [hz] at hxl
            omega
          obtain ⟨zc, z', rfl⟩ := List.exists_cons_of_ne_nil hzne
          cases A' with
          | nil =>
            have : (zc :: z' : Str) <+: [] := hzp
            exact absurd (List.prefix_nil.mp this) (List.cons_ne_nil zc z')
          | cons b A'' =>
            cases b with
            | lit d => exact absurd hnl (by simp [headNotLit])
            | occ e3 =>
              have hshape : renderM (Atom.occ e3 :: A'')
                  = '[' :: (e3.1 ++ [']'] ++ renderA (fun e => marker e.1) A'') := by
                simp [renderM, renderA, marker]
              rw [hshape] at hzp
              have hzc := (List.cons_prefix_cons.mp hzp).1
              have : '[' ∈ e.2 := by
                rw [hz, hzc]
                exact List.mem_append_right x (List.mem_cons_self _ _)
              exact hbf.1 this
      refine ⟨?_, ?_, ?_, ?_⟩
      · show replaceAll e.2 (marker e.1) (c ++ renderM A')
            = renderM (chunkAtoms e c.length c ++ maskAtoms e A')
        rw [replaceAll_append e.2 (marker e.1) hsec c.length c (renderM A')
          (le_refl _) hspan]
        rw [renderM_append]
        have hc : replaceAll e.2 (marker e.1) c = renderM (chunkAtoms e c.length c) :=
          (renderM_chunkAtoms e hsec c.length c).symm
        rw [hc, ihR]
      · show renderO (chunkAtoms e c.length c ++ maskAtoms e A')
            = renderO (Atom.lit c :: A')
        rw [renderO_append, renderO_chunkAtoms e c.length c, ihO]
        rfl
      · intro e2 h2
        rcases List.mem_append.mp h2 with h2 | h2
        · rw [mem_occ_chunkAtoms h2]; exact he
        · exact ihI e2 h2
      · exact altOK_append (altOK_chunkAtoms e c.length c) ihA
          (headNotLit_maskAtoms hnl)
    | occ e2 =>
      have he2 : e2 ∈ M := hocc e2 (List.mem_cons_self _ _)
      obtain ⟨ihR, ihO, ihI, ihA⟩ := ih hocc' halt
      have hskip : ∀ x, x <:+ marker e2.1 → x ≠ [] →
          ¬ e.2 <+: (x ++ renderM A') := by
        intro x hx hxne hpre
        rcases prefix_split hpre with h | ⟨z, hz, _⟩
        · have hinm : e.2 <:+: marker e2.1 := h.isInfix.trans hx.isInfix
          have := infix_marker_of_bracket_free hsec hbf.1 hbf.2 hinm
          exact hV.sec_not_ph e he e2 he2 this
        · have hxm : ']' ∈ x := suffix_marker_mem hx hxne
          have : ']' ∈ e.2 := by
            rw [hz]
            exact List.mem_append_left z hxm
          exact hbf.2 this
      refine ⟨?_, ?_, ?_, ?_⟩
      · show replaceAll e.2 (marker e.1) (marker e2.1 ++ renderM A')
            = renderM (Atom.occ e2 :: maskAtoms e A')
        rw [replaceAll_skip e.2 (marker e.1) hsec (marker e2.1) (renderM A') hskip]
        rw [ihR]
        rfl
      · show e2.2 ++ renderO (maskAtoms e A') = e2.2 ++ renderO A'
        rw [ihO]
      · intro e3 h3
        rcases List.mem_cons.mp h3 with h3 | h3
        · rw [(Atom.occ.injEq _ _).mp h3]; exact he2
        · exact ihI e3 h3
      · exact ihA

/-- The `mask_prompt` fold keeps the text in masked-decomposition
form. -/
theorem mask_foldl_render (M : SensitiveData) (hV : VaultOK M) :
    ∀ (ents : List (Str × Str)), (∀ x ∈ ents, x ∈ M) →
    ∀ A, occsIn A M → AltOK A →
      ∃ A2, (List.foldl (fun acc ps =>
          if ps.2 ≠ [] ∧ strIn ps.2 acc then
            replaceAll ps.2 (marker ps.1) acc
          else acc) (renderM A) ents) = renderM A2
        ∧ renderO A2 = renderO A ∧ occsIn A2 M ∧ AltOK A2 := by
  intro ents
  induction ents with
  | nil => intro _ A hA1 hA2; exact ⟨A, rfl, rfl, hA1, hA2⟩
  | cons en rest ih =>
    intro hmem A hA1 hA2
    have hen : en ∈ M := hmem en (List.mem_cons_self _ _)
    have hmem' : ∀ x ∈ rest, x ∈ M :=
      fun x hx => hmem x (List.mem_cons_of_mem _ hx)
    simp only [List.foldl_cons]
    by_cases hg : en.2 ≠ [] ∧ strIn en.2 (renderM A) = true
    · rw [if_pos hg]
      obtain ⟨hR, hO, hI, hAl⟩ := maskAtoms_render M hV en hen A hA1 hA2
      rw [hR]
      obtain ⟨A2, h1, h2, h3, h4⟩ := ih hmem' (maskAtoms en A) hI hAl
      exact ⟨A2, h1, by rw [h2, hO], h3, h4⟩
    · rw [if_neg hg]
      exact ih hmem' A hA1 hA2

/-! ## One unmasking stage -/

/-- One `unmask` replacement restores exactly the tracked occurrences of
the selected entry. -/
theorem unmask_replace_render (M : SensitiveData) (hV : VaultOK M)
    (t : Str) (e0 : Str × Str) (he0 : e0 ∈ M)
    (htm : ¬ marker e0.1 <:+: t)
    (done : Str × Str → Bool) (hd0 : done e0 = false) :
    ∀ A, occsIn A M → renderO A <:+ t →
      replaceAll (marker e0.1) e0.2 (renderSt done A)
        = renderSt (fun e => done e || decide (e = e0)) A := by
  have hmne : marker e0.1 ≠ [] := by simp [marker]
  intro A
  induction A with
  | nil =>
    intro _ _
    show replaceAll (marker e0.1) e0.2 [] = ([] : Str)
    rw [replaceAll_nil, if_neg hmne]
  | cons a A' ih =>
    intro hocc hsuf
    have hocc' : occsIn A' M := fun e2 h2 => hocc e2 (List.mem_cons_of_mem _ h2)
    have hbfA' : ∀ e, Atom.occ e ∈ A' → '[' ∉ e.2 :=
      fun e h => (hV.sec_bf e (hocc' e h)).1
    cases a with
    | lit c =>
      have hsuf' : renderO A' <:+ t :=
        (List.suffix_append c (renderO A')).trans hsuf
      have hct : c <:+: t :=
        (List.prefix_append c (renderO A')).isInfix.trans hsuf.isInfix
      have hsk : ∀ x, x <:+ c → x ≠ [] →
          ¬ marker e0.1 <+: (x ++ renderSt done A') := by
        intro x hx hxne hpre
        rcases prefix_split hpre with h | ⟨z, hz, hzp⟩
        · exact htm ((h.isInfix.trans hx.isInfix).trans hct)
        · have hsp := marker_span_into_render (hV.ph_bf e0 he0).1 hbfA'
            hx hxne hzp hz
          exact htm (hsp.trans hsuf.isInfix)
      show replaceAll (marker e0.1) e0.2 (c ++ renderSt done A')
          = c ++ renderSt (fun e => done e || decide (e = e0)) A'
      rw [replaceAll_skip (marker e0.1) e0.2 hmne c (renderSt done A') hsk]
      rw [ih hocc' hsuf']
    | occ e =>
      have he : e ∈ M := hocc e (List.mem_cons_self _ _)
      have hsuf' : renderO A' <:+ t :=
        (List.suffix_append e.2 (renderO A')).trans hsuf
      by_cases hee : e = e0
      · have hhead : (if done e then e.2 else marker e.1) = marker e0.1 := by
          rw [hee, hd0]
          simp
        have hhead2 : (if (done e || decide (e = e0)) then e.2 else marker e.1)
            = e0.2 := by
          rw [hee]
          simp [hd0]
        show replaceAll (marker e0.1) e0.2
            ((if done e then e.2 else marker e.1) ++ renderSt done A')
            = (if (done e || decide (e = e0)) then e.2 else marker e.1)
              ++ renderSt (fun e2 => done e2 || decide (e2 = e0)) A'
        rw [hhead, hhead2, replaceAll_head (marker e0.1) e0.2 _ hmne,
          ih hocc' hsuf']
      · cases hde : done e with
        | true =>
          have hlb : '[' ∉ e.2 := (hV.sec_bf e he).1
          have hlbm : '[' ∈ marker e0.1 := by simp [marker]
          have hsk : ∀ x, x <:+ e.2 → x ≠ [] →
              ¬ marker e0.1 <+: (x ++ renderSt done A') := by
            intro x hx hxne hpre
            rcases prefix_split hpre with h | ⟨z, hz, _⟩
            · exact hlb (hx.mem (h.mem hlbm))
            · have hxp : x <+: marker e0.1 := ⟨z, hz.symm⟩
              obtain ⟨xc, x', rfl⟩ := List.exists_cons_of_ne_nil hxne
              have hm : marker e0.1 = '[' :: (e0.1 ++ [']']) := by simp [marker]
              rw [hm] at hxp
              have hxc := (List.cons_prefix_cons.mp hxp).1
              exact hlb (hx.mem (hxc ▸ List.mem_cons_self xc x'))
          have hhead : (if done e then e.2 else marker e.1) = e.2 := by
            rw [hde]
            simp
          have hhead2 : (if (done e || decide (e = e0)) then e.2 else marker e.1)
              = e.2 := by
            rw [hde]
            simp
          show replaceAll (marker e0.1) e0.2
              ((if done e then e.2 else marker e.1) ++ renderSt done A')
              = (if (done e || decide (e = e0)) then e.2 else marker e.1)
                ++ renderSt (fun e2 => done e2 || decide (e2 = e0)) A'
          rw [hhead, hhead2,
            replaceAll_skip (marker e0.1) e0.2 hmne e.2 (renderSt done A') hsk,
            ih hocc' hsuf']
        | false =>
          have hphe := hV.ph_bf e he
          have hphe0 := hV.ph_bf e0 he0
          have hsk : ∀ x, x <:+ marker e.1 → x ≠ [] →
              ¬ marker e0.1 <+: (x ++ renderSt done A') := by
            intro x hx hxne hpre
            rcases prefix_split hpre with h | ⟨z, hz, _⟩
            · have hinm : marker e0.1 <:+: marker e.1 :=
                h.isInfix.trans hx.isInfix
              have heq := marker_infix_marker hphe0.2 hphe.2 hphe.1 hinm
              exact hee (eq_of_key_eq hV.keys_nodup he he0 heq.symm)
            · by_cases hze : z = []
              · rw [hze, List.append_nil] at hz
                have hinm : marker e0.1 <:+: marker e.1 := by
                  rw [hz]
                  exact hx.isInfix
                have heq := marker_infix_marker hphe0.2 hphe.2 hphe.1 hinm
                exact hee (eq_of_key_eq hV.keys_nodup he he0 heq.symm)
              · have hxm : ']' ∈ x := suffix_marker_mem hx hxne
                have hxp : x <+: marker e0.1 := ⟨z, hz.symm⟩
                have hxl : x.length < (marker e0.1).length := by
                  have h1 : (marker e0.1).length = x.length + z.length := by
                    rw [hz, List.length_append]
                  have h2 : 0 < z.length := List.length_pos.mpr hze
                  omega
                have hpp := proper_prefix_marker hxp hxl
                rcases List.mem_cons.mp (hpp.mem hxm) with h' | h'
                · exact absurd h' (by decide)
                · exact hphe0.2 h'
          have hhead : (if done e then e.2 else marker e.1) = marker e.1 := by
            rw [hde]
            simp
          have hhead2 : (if (done e || decide (e = e0)) then e.2 else marker e.1)
              = marker e.1 := by
            rw [hde]
            simp [hee]
          show replaceAll (marker e0.1) e0.2
              ((if done e then e.2 else marker e.1) ++ renderSt done A')
              = (if (done e || decide (e = e0)) then e.2 else marker e.1)
                ++ renderSt (fun e2 => done e2 || decide (e2 = e0)) A'
          rw [hhead, hhead2,
            replaceAll_skip (marker e0.1) e0.2 hmne (marker e.1)
              (renderSt done A') hsk,
            ih hocc' hsuf']

/-- The marker of an entry with no tracked occurrence does not appear in
the rendering. -/
theorem no_marker_in_render (M : SensitiveData) (hV : VaultOK M)
    (t : Str) (e0 : Str × Str) (he0 : e0 ∈ M)
    (htm : ¬ marker e0.1 <:+: t) (done : Str × Str → Bool) :
    ∀ A, occsIn A M → renderO A <:+ t → Atom.occ e0 ∉ A →
      ¬ marker e0.1 <:+: renderSt done A := by
  intro A
  induction A with
  | nil =>
    intro _ _ _ h
    have := List.eq_nil_of_infix_nil h
    simp [marker] at this
  | cons a A' ih =>
    intro hocc hsuf hnm hinf
    have hocc' : occsIn A' M := fun e2 h2 => hocc e2 (List.mem_cons_of_mem _ h2)
    have hnm' : Atom.occ e0 ∉ A' := fun h => hnm (List.mem_cons_of_mem _ h)
    have hbfA' : ∀ e, Atom.occ e ∈ A' → '[' ∉ e.2 :=
      fun e h => (hV.sec_bf e (hocc' e h)).1
    cases a with
    | lit c =>
      have hsuf' : renderO A' <:+ t :=
        (List.suffix_append c (renderO A')).trans hsuf
      have hct : c <:+: t :=
        (List.prefix_append c (renderO A')).isInfix.trans hsuf.isInfix
      have hinf2 : marker e0.1 <:+: c ++ renderSt done A' := hinf
      rcases infix_split hinf2 with h | h | ⟨x, z, hxz, hxne, _, hxs, hzp⟩
      · exact htm (h.trans hct)
      · exact ih hocc' hsuf' hnm' h
      · have hsp := marker_span_into_render (hV.ph_bf e0 he0).1 hbfA'
          hxs hxne hzp hxz
        exact htm (hsp.trans hsuf.isInfix)
    | occ e =>
      have he : e ∈ M := hocc e (List.mem_cons_self _ _)
      have hee : e ≠ e0 := fun h => hnm (h ▸ List.mem_cons_self _ _)
      have hsuf' : renderO A' <:+ t :=
        (List.suffix_append e.2 (renderO A')).trans hsuf
      have hinf2 : marker e0.1 <:+:
          (if done e then e.2 else marker e.1) ++ renderSt done A' := hinf
      cases hde : done e with
      | true =>
        rw [hde, if_pos rfl] at hinf2
        have hlb : '[' ∉ e.2 := (hV.sec_bf e he).1
        have hlbm : '[' ∈ marker e0.1 := by simp [marker]
        rcases infix_split hinf2 with h | h | ⟨x, z, hxz, hxne, _, hxs, _⟩
        · exact hlb (List.IsInfix.mem hlbm h)
        · exact ih hocc' hsuf' hnm' h
        · have hxp : x <+: marker e0.1 := ⟨z, hxz.symm⟩
          obtain ⟨xc, x', rfl⟩ := List.exists_cons_of_ne_nil hxne
          have hm : marker e0.1 = '[' :: (e0.1 ++ [']']) := by simp [marker]
          rw [hm] at hxp
          have hxc := (List.cons_prefix_cons.mp hxp).1
          exact hlb (hxs.mem (hxc ▸ List.mem_cons_self xc x'))
      | false =>
        rw [hde, if_neg Bool.false_ne_true] at hinf2
        have hphe := hV.ph_bf e he
        have hphe0 := hV.ph_bf e0 he0
        rcases infix_split hinf2 with h | h | ⟨x, z, hxz, hxne, hzne, hxs, _⟩
        · have heq := marker_infix_marker hphe0.2 hphe.2 hphe.1 h
          exact hee ((eq_of_key_eq hV.keys_nodup he0 he heq).symm)
        · exact ih hocc' hsuf' hnm' h
        · have hxm : ']' ∈ x := suffix_marker_mem hxs hxne
          have hxp : x <+: marker e0.1 := ⟨z, hxz.symm⟩
          have hxl : x.length < (marker e0.1).length := by
            have h1 : (marker e0.1).length = x.length + z.length := by
              rw [hxz, List.length_append]
            have h2 : 0 < z.length := List.length_pos.mpr hzne
            omega
          have hpp := proper_prefix_marker hxp hxl
          rcases List.mem_cons.mp (hpp.mem hxm) with h' | h'
          · exact absurd h' (by decide)
          · exact hphe0.2 h'

/-! ## The unmasking fold -/

/-- The `unmask_value` fold restores the remaining entries one at a
time: after processing the prefix `pre` of the vault, the value is the
rendering with exactly the entries of `pre` restored. -/
theorem unmask_foldl_render (M : SensitiveData) (hV : VaultOK M) (t : Str)
    (htm : ∀ e ∈ M, ¬ marker e.1 <:+: t)
    (htp : ∀ e ∈ M, t ≠ e.1) :
    ∀ (suf pre : List (Str × Str)), M = pre ++ suf →
    ∀ A, occsIn A M → renderO A = t →
      List.foldl (fun acc ps =>
          if strIn (marker ps.1) acc then
            replaceAll (marker ps.1) ps.2 acc
          else if acc = ps.1 then ps.2
          else acc)
        (renderSt (fun e => decide (e ∈ pre)) A) suf
        = renderSt (fun e => decide (e ∈ pre ++ suf)) A := by
  intro suf
  induction suf with
  | nil =>
    intro pre _ A _ _
    simp only [List.foldl_nil]
    exact renderA_congr (fun e _ => by rw [List.append_nil])
  | cons en rest ih =>
    intro pre hM A hA hO
    have hen : en ∈ M := by
      rw [hM]
      exact List.mem_append_right pre (List.mem_cons_self _ _)
    have hOs : renderO A <:+ t := by
      rw [hO]
    have hdone_en : decide (en ∈ pre) = false := by
      have hnodup : M.Nodup := List.Nodup.of_map Prod.fst hV.keys_nodup
      have hdisj := List.disjoint_of_nodup_append (hM ▸ hnodup)
      simp only [decide_eq_false_iff_not]
      intro hpre2
      exact hdisj hpre2 (List.mem_cons_self _ _)
    have hM' : M = (pre ++ [en]) ++ rest := by
      rw [hM, List.append_cons]
    simp only [List.foldl_cons]
    by_cases hocc : Atom.occ en ∈ A
    · have hmark : marker en.1 <:+: renderSt (fun e => decide (e ∈ pre)) A := by
        have h2 := @infix_render_of_occ_mem
          (fun e => if decide (e ∈ pre) then e.2 else marker e.1) en A hocc
        dsimp only at h2
        rw [hdone_en, if_neg Bool.false_ne_true] at h2
        exact h2
      rw [if_pos (show strIn (marker en.1)
        (renderSt (fun e => decide (e ∈ pre)) A) = true from decide_eq_true hmark)]
      rw [unmask_replace_render M hV t en hen (htm en hen)
        (fun e => decide (e ∈ pre)) hdone_en A hA hOs]
      have hstep : renderSt (fun e => decide (e ∈ pre) || decide (e = en)) A
          = renderSt (fun e => decide (e ∈ pre ++ [en])) A := by
        apply renderA_congr
        intro e _
        have hdd : (decide (e ∈ pre) || decide (e = en))
            = decide (e ∈ pre ++ [en]) := by
          rw [← Bool.decide_or]
          exact decide_eq_decide.mpr (by simp)
        dsimp only
        rw [hdd]
      rw [hstep, ih (pre ++ [en]) hM' A hA hO]
      simp only [← List.append_cons]
    · have hnomark := no_marker_in_render M hV t en hen (htm en hen)
        (fun e => decide (e ∈ pre)) A hA hOs hocc
      rw [if_neg (show ¬ strIn (marker en.1)
        (renderSt (fun e => decide (e ∈ pre)) A) = true from
        fun h => hnomark (of_decide_eq_true h))]
      have hne : renderSt (fun e => decide (e ∈ pre)) A ≠ en.1 := by
        by_cases hall : ∀ e, Atom.occ e ∈ A → (decide (e ∈ pre)) = true
        · have hro : renderSt (fun e => decide (e ∈ pre)) A = renderO A :=
            renderA_congr (fun e he => by dsimp only; rw [hall e he]; simp)
          rw [hro, hO]
          exact htp en hen
        · push_neg at hall
          obtain ⟨e2, he2, hd2⟩ := hall
          have hd2' : decide (e2 ∈ pre) = false := by
            cases h : decide (e2 ∈ pre)
            · rfl
            · exact absurd h hd2
          have hm2 : marker e2.1 <:+:
              renderSt (fun e => decide (e ∈ pre)) A := by
            have h2 := @infix_render_of_occ_mem
              (fun e => if decide (e ∈ pre) then e.2 else marker e.1) e2 A he2
            dsimp only at h2
            rw [hd2', if_neg Bool.false_ne_true] at h2
            exact h2
          intro heq
          have hbm : '[' ∈ renderSt (fun e => decide (e ∈ pre)) A :=
            List.IsInfix.mem (by simp [marker]) hm2
          rw [heq] at hbm
          exact (hV.ph_bf en hen).1 hbm
      rw [if_neg hne]
      have hcongr : renderSt (fun e => decide (e ∈ pre)) A
          = renderSt (fun e => decide (e ∈ pre ++ [en])) A := by
        apply renderA_congr
        intro e he
        have hne2 : e ≠ en := fun h => hocc (h ▸ he)
        have hdd : decide (e ∈ pre) = decide (e ∈ pre ++ [en]) :=
          decide_eq_decide.mpr (by simp [hne2])
        dsimp only
        rw [hdd]
      rw [hcongr, ih (pre ++ [en]) hM' A hA hO]
      simp only [← List.append_cons]

/-! ## The round trip -/

/-- Unmasking a masked text restores the text, under the stated
well-formedness of the vault and the text. -/
theorem unmask_mask_roundtrip (M : SensitiveData) (t : Str)
    (hne : ∀ e ∈ M, e.2 ≠ [])
    (hsp : ∀ e ∈ M, ∀ e2 ∈ M, ¬ e.2 <:+: e2.1)
    (hsb : ∀ e ∈ M, '[' ∉ e.2 ∧ ']' ∉ e.2)
    (hpb : ∀ e ∈ M, '[' ∉ e.1 ∧ ']' ∉ e.1)
    (hkeys : (M.map Prod.fst).Nodup)
    (htm : ∀ e ∈ M, ¬ marker e.1 <:+: t)
    (htp : ∀ e ∈ M, t ≠ e.1) :
    unmask_value M (mask_prompt M t) = t := by
  have hV : VaultOK M := ⟨hne, hsb, hpb, hkeys, hsp⟩
  by_cases hM : M = []
  · subst hM
    simp [mask_prompt, unmask_value]
  by_cases ht : t = []
  · subst ht
    rw [show mask_prompt M [] = [] from by simp [mask_prompt]]
    have h := unmask_foldl_render M hV [] htm htp M [] (by simp) []
      (fun e he => absurd he (List.not_mem_nil _)) rfl
    simpa [unmask_value, renderSt, renderA] using h
  · have hmask : mask_prompt M t = List.foldl (fun acc ps =>
        if ps.2 ≠ [] ∧ strIn ps.2 acc then replaceAll ps.2 (marker ps.1) acc
        else acc) t M := by
      simp only [mask_prompt]
      rw [if_neg]
      rintro (h | h)
      · exact ht h
      · exact hM h
    have hA0occ : occsIn [Atom.lit t] M := by
      intro e he
      simp at he
    have hA0alt : AltOK [Atom.lit t] := ⟨trivial, trivial⟩
    have hrM : renderM [Atom.lit t] = t := by simp [renderM, renderA]
    have hrO : renderO [Atom.lit t] = t := by simp [renderO, renderA]
    obtain ⟨A2, hfold, hO2, hI2, _⟩ :=
      mask_foldl_render M hV M (fun x hx => hx) [Atom.lit t] hA0occ hA0alt
    rw [hrM] at hfold
    have hO2t : renderO A2 = t := by rw [hO2, hrO]
    rw [hmask, hfold]
    show List.foldl (fun acc ps =>
        if strIn (marker ps.1) acc then
          replaceAll (marker ps.1) ps.2 acc
        else if acc = ps.1 then ps.2
        else acc) (renderM A2) M = t
    have hM0 : renderM A2
        = renderSt (fun e => decide (e ∈ ([] : List (Str × Str)))) A2 :=
      renderA_congr (fun e _ => by simp)
    rw [hM0, unmask_foldl_render M hV t htm htp M [] (by simp) A2 hI2 hO2t]
    rw [show renderSt (fun e => decide (e ∈ ([] : List (Str × Str)) ++ M)) A2
        = renderO A2 from
      renderA_congr (fun e he => by simp [hI2 e he])]
    exact hO2t

/-- C3 counterexample: the vault `{user: s3cret}` has a non-empty secret
that is not a substring of any other secret, of a placeholder or of the
bracket syntax, and the text `user` does not contain the literal
placeholder syntax `[user]`; yet unmask(mask("user")) = "s3cret" ≠
"user", because `unmask_action`'s bare-placeholder fallback rewrites a
text that merely equals a placeholder name even though masking never
touched it. -/
theorem C3_counterexample_bare_placeholder_text :
    (∀ e ∈ sdRT, e.2 ≠ []) ∧
    (∀ e ∈ sdRT, ∀ e2 ∈ sdRT, e ≠ e2 → e.2 ≠ e2.2) ∧
    (∀ e ∈ sdRT, ∀ e2 ∈ sdRT, e ≠ e2 → ¬ e.2 <:+: e2.2) ∧
    (∀ e ∈ sdRT, ∀ e2 ∈ sdRT, ¬ e.2 <:+: e2.1) ∧
    (∀ e ∈ sdRT, ∀ e2 ∈ sdRT, ¬ e.2 <:+: marker e2.1) ∧
    (∀ e ∈ sdRT, ¬ marker e.1 <:+: tRT) ∧
    unmask_value sdRT (mask_prompt sdRT tRT) ≠ tRT := by
  decide

/-- C3 (amended): for every sensitive-data map whose secret values are
non-empty, pairwise distinct and non-overlapping (no secret a substring
of another secret, of a placeholder name, or of the bracket syntax),
whose secrets and placeholder names contain no square brackets, whose
placeholder names are pairwise distinct, and for every text that neither
contains the literal placeholder syntax of any entry nor is itself
exactly a bare placeholder name, unmasking the result of masking the
text yields the original text. -/
theorem C3_amended_unmask_mask_roundtrip (M : SensitiveData) (t : Str)
    (hne : ∀ e ∈ M, e.2 ≠ [])
    (hdist : ∀ e ∈ M, ∀ e2 ∈ M, e ≠ e2 → e.2 ≠ e2.2)
    (hss : ∀ e ∈ M, ∀ e2 ∈ M, e ≠ e2 → ¬ e.2 <:+: e2.2)
    (hsp : ∀ e ∈ M, ∀ e2 ∈ M, ¬ e.2 <:+: e2.1)
    (hsm : ∀ e ∈ M, ∀ e2 ∈ M, ¬ e.2 <:+: marker e2.1)
    (hsb : ∀ e ∈ M, '[' ∉ e.2 ∧ ']' ∉ e.2)
    (hpb : ∀ e ∈ M, '[' ∉ e.1 ∧ ']' ∉ e.1)
    (hkeys : (M.map Prod.fst).Nodup)
    (htm : ∀ e ∈ M, ¬ marker e.1 <:+: t)
    (htp : ∀ e ∈ M, t ≠ e.1) :
    unmask_value M (mask_prompt M t) = t :=
  unmask_mask_roundtrip M t hne hsp hsb hpb hkeys htm htp

/-- Witness: the amended C3 theorem applied to the two-secret vault
`{user: abc, pass: xyz}` and the text `login abc with xyz now`. -/
theorem C3_amended_unmask_mask_roundtrip_witness :
    unmask_value sdRT2 (mask_prompt sdRT2 tRT2) = tRT2 :=
  C3_amended_unmask_mask_roundtrip sdRT2 tRT2 (by decide) (by decide)
    (by decide) (by decide) (by decide) (by decide) (by decide) (by decide)
    (by decide) (by decide)

end NovelAgent
